import Mathlib

/-!
Formal verification of the MeshGopher repository against its specification.

The Python sources are shallowly embedded in Lean.  A Python `str` is a
sequence of Unicode code points, so it is modelled as `List Char`; Python
slicing, `split`, `strip`, `rfind` and friends become the corresponding
list operations.  Python `int` is `Int`, machine-width issues do not arise
in this code base.  Socket input and output is abstracted by an oracle
(`Net`) passed explicitly; a raised exception is an `Except.error` value.

Embedded files: `src/meshie/chunker.py`, `src/gopherlib.py`, `src/main.py`.
-/

set_option maxHeartbeats 1000000
set_option autoImplicit false

namespace MeshGopher

/-- Python strings are sequences of code points. -/
abbrev PyStr := List Char

/-! ## Generic helpers shared by the embedded modules -/

/-- `s.dropWhile p` has some trailing analogue: remove the longest suffix of
characters satisfying `p` (Python `rstrip` with a character class). -/
def rdropWhileP (p : Char → Bool) (s : List Char) : List Char :=
  (s.reverse.dropWhile p).reverse

/-- Python `s.startswith(p)`. -/
def pyStartsWith (s p : List Char) : Bool :=
  s.take p.length == p

/-- Python `s.endswith(p)`. -/
def pyEndsWith (s p : List Char) : Bool :=
  pyStartsWith s.reverse p.reverse

/-- Python `str.split(sep, 1)`: the part before the first occurrence of
`sep` and, when `sep` occurs, the remainder after it. -/
def splitFirst : List Char → Char → List Char × Option (List Char)
  | [], _ => ([], none)
  | c :: cs, sep =>
    if c = sep then ([], some cs)
    else
      let r := splitFirst cs sep
      (c :: r.1, r.2)

/-- Python `str.split(sep)` with a one-character separator and no limit:
empty parts are kept, and `n` separators yield `n + 1` parts. -/
def splitOnChar (sep : Char) : List Char → List (List Char)
  | [] => [[]]
  | c :: cs =>
    let r := splitOnChar sep cs
    if c = sep then [] :: r
    else
      match r with
      | [] => [[c]]
      | h :: t => (c :: h) :: t

/-- The whitespace class of Python `str.strip()` (ASCII part; the claims
only exercise ASCII input). -/
def isPyWs (ch : Char) : Bool :=
  ch == ' ' || ch == '\t' || ch == '\n' || ch == '\r' || ch == '\x0b' || ch == '\x0c'

/-- Python `str.strip()`. -/
def pyStrip (s : List Char) : List Char :=
  rdropWhileP isPyWs (s.dropWhile isPyWs)

/-- Last index at which the predicate holds (Python `str.rfind` for a
character class; `none` plays the role of `-1`). -/
def rfind_idx (p : Char → Bool) : List Char → Option Nat
  | [] => none
  | c :: cs =>
    match rfind_idx p cs with
    | some i => some (i + 1)
    | none => if p c then some 0 else none

/-- Python `sep.join(parts)`. -/
def pyJoin (sep : List Char) : List (List Char) → List Char
  | [] => []
  | [x] => x
  | x :: xs => x ++ sep ++ pyJoin sep xs

/-- ASCII decimal digit test, the character class accepted by Python
`int()` (Python additionally accepts non-ASCII digits and underscore
separators, which no input of interest contains). -/
def isDigitCh (ch : Char) : Bool :=
  48 ≤ ch.toNat && ch.toNat ≤ 57

/-- Value of a string of decimal digits. -/
def digitsVal (s : List Char) : Nat :=
  s.foldl (fun a ch => a * 10 + (ch.toNat - 48)) 0

/-- A non-empty all-digit string evaluated, else `none`. -/
def pyDigits? (s : List Char) : Option Nat :=
  if s ≠ [] ∧ s.all isDigitCh then some (digitsVal s) else none

/-- Python `int(s)`: optional surrounding whitespace, an optional sign,
then decimal digits; `none` models the `ValueError` that `int` raises on
anything else. -/
def pyInt? (s : List Char) : Option Int :=
  if pyStrip s = [] then none
  else if (pyStrip s).headD ' ' = '-' then (pyDigits? (pyStrip s).tail).map (fun n => -(n : Int))
  else if (pyStrip s).headD ' ' = '+' then (pyDigits? (pyStrip s).tail).map (fun n => (n : Int))
  else (pyDigits? (pyStrip s)).map (fun n => (n : Int))

/-- Decimal digits of `n`, most significant first.  The first argument is
recursion fuel; `natRepr` passes enough for the loop never to be cut
short, making the definition structural and hence kernel-evaluable. -/
def natReprAux : Nat → Nat → List Char
  | 0, _ => []
  | fuel + 1, n =>
    if n < 10 then [Nat.digitChar n]
    else natReprAux fuel (n / 10) ++ [Nat.digitChar (n % 10)]

/-- Python `str(n)` for a natural number. -/
def natRepr (n : Nat) : List Char := natReprAux (n + 1) n

/-- Python `str(n)` for an integer. -/
def intRepr : Int → List Char
  | .ofNat n => natRepr n
  | .negSucc m => '-' :: natRepr (m + 1)

/-- `true` exactly on `Except.error`, modelling a Python exception
propagating out of a call. -/
def raised {α : Type} : Except PyStr α → Bool
  | .error _ => true
  | .ok _ => false

instance {ε α : Type} [DecidableEq ε] [DecidableEq α] : DecidableEq (Except ε α) := fun a b =>
  match a, b with
  | .error e1, .error e2 =>
    if h : e1 = e2 then isTrue (by rw [h]) else isFalse (by intro hx; cases hx; exact h rfl)
  | .ok v1, .ok v2 =>
    if h : v1 = v2 then isTrue (by rw [h]) else isFalse (by intro hx; cases hx; exact h rfl)
  | .error _, .ok _ => isFalse (by intro hx; cases hx)
  | .ok _, .error _ => isFalse (by intro hx; cases hx)

/-! ## `src/meshie/chunker.py` -/

namespace chunker

/-- Modelled from the spec: `meshie/constants.py` is not under `src/`, so
the value of `MAX_DM_BYTES` (the absolute protocol ceiling of section 4.6)
is taken from the only figure the repository documents for it, the
"capped at 200" bytes of `meshie/client.py`. -/
def MAX_DM_BYTES : Int := 200

/-- `_utf8_char_len`: byte length of one code point under UTF-8. -/
def utf8_char_len (ch : Char) : Nat :=
  if ch.toNat ≤ 0x7F then 1
  else if ch.toNat ≤ 0x7FF then 2
  else if ch.toNat ≤ 0xFFFF then 3
  else 4

/-- UTF-8 byte length of a string (`len(s.encode("utf-8"))`). -/
def utf8Len (s : List Char) : Nat :=
  (s.map utf8_char_len).sum

/-- The scanning loop of `_utf8_window`: extend the window while the used
byte budget allows the next code point (`used + char_len > max_bytes`
breaks the Python loop). -/
def utf8_window_core : List Char → Nat → Nat → List Char
  | [], _, _ => []
  | ch :: cs, used, max_bytes =>
    if max_bytes < used + utf8_char_len ch then []
    else ch :: utf8_window_core cs (used + utf8_char_len ch) max_bytes

/-- `_utf8_window`, applied to the suffix `payload[start:]`: a window of at
most `max_bytes` UTF-8 bytes, force-advanced by one code point when even
the first one does not fit (`if idx == start and idx < length`). The
Python pair `(window, window_end)` is recovered as
`(window, start + window.length)`. -/
def utf8_window (text : List Char) (max_bytes : Nat) : List Char :=
  let w := utf8_window_core text 0 max_bytes
  if w = [] ∧ text ≠ [] then text.take 1 else w

/-- The tail of `_find_split_index`: last space or tab split
(`_find_space_split`, which yields `pos + 1 > 0` whenever it is not
`None`), else the window length. -/
def find_split_space_or_len (window : List Char) : Nat :=
  match (rfind_idx (fun ch => ch == ' ' || ch == '\t') window).map (· + 1) with
  | some i => if 0 < i then i else window.length
  | none => window.length

/-- `_find_split_index`: prefer the position after the last newline when
that newline is not the first character, else fall back to whitespace. -/
def find_split_index (window : List Char) : Nat :=
  match rfind_idx (fun ch => ch == '\n') window with
  | some i => if 0 < i then i + 1 else find_split_space_or_len window
  | none => find_split_space_or_len window

/-- One block of the regular expression `(?:\r?\n[ \t]*)+` read from the
END of the string: callers pass the reversed string, so the block reads
spaces and tabs, then the newline, then an optional carriage return
(consumed greedily, exactly as the regex engine matches it). -/
def rev_take_block (s : List Char) : Option (List Char) :=
  match s.dropWhile (fun ch => ch == ' ' || ch == '\t') with
  | '\n' :: '\r' :: r => some r
  | '\n' :: r => some r
  | _ => none

/-- Strip as many complete reversed blocks as possible (fuelled; the fuel
`s.length` can never be exhausted first since each block consumes at least
one character). -/
def rev_drop_blank : Nat → List Char → List Char
  | 0, s => s
  | fuel + 1, s =>
    match rev_take_block s with
    | some r => rev_drop_blank fuel r
    | none => s

/-- `re.sub(r"(?:\r?\n[ \t]*)+$", "", s)`: remove the longest suffix made
of newline-then-indent blocks. -/
def strip_blank_tail (s : List Char) : List Char :=
  (rev_drop_blank s.length s.reverse).reverse

/-- One block of `^(?:[ \t]*\r?\n)+` read from the start: spaces and tabs,
an optional carriage return, then the newline. -/
def take_block (s : List Char) : Option (List Char) :=
  match s.dropWhile (fun ch => ch == ' ' || ch == '\t') with
  | '\r' :: '\n' :: r => some r
  | '\n' :: r => some r
  | _ => none

/-- `re.sub(r"^(?:[ \t]*\r?\n)+", "", s)` (fuelled like `rev_drop_blank`). -/
def drop_blank_lead : Nat → List Char → List Char
  | 0, s => s
  | fuel + 1, s =>
    match take_block s with
    | some r => drop_blank_lead fuel r
    | none => s

/-- `_remove_trailing_blank_lines`. -/
def remove_trailing_blank_lines (text : List Char) (split_idx : Nat) : Nat :=
  if split_idx = 0 then split_idx
  else
    let trimmed := strip_blank_tail (text.take split_idx)
    if trimmed = [] then split_idx else trimmed.length

/-- `_avoid_short_last_line`.  In the Python source the branch where the
slice holds no newline computes the candidate last line but returns
`split_idx` on both of its paths, so it is collapsed here. -/
def avoid_short_last_line (text : List Char) (split_idx : Nat) : Nat :=
  if split_idx = 0 then split_idx
  else
    let without_newlines := rdropWhileP (fun ch => ch == '\r' || ch == '\n') (text.take split_idx)
    if without_newlines = [] then split_idx
    else
      match rfind_idx (fun ch => ch == '\n') without_newlines with
      | none => split_idx
      | some last_newline =>
        let last_line := (without_newlines.drop (last_newline + 1)).filter (fun ch => !(ch == '\r'))
        if last_line.length < 5 then last_newline + 1 else split_idx

/-- `_adjust_split_for_blank_and_short`. -/
def adjust_split_for_blank_and_short (window : List Char) (split_idx : Nat) : Nat :=
  avoid_short_last_line window (remove_trailing_blank_lines window split_idx)

/-- `_trim_chunk_edges`: strip leading blank lines, trailing blank lines,
then stray carriage returns at either edge. -/
def trim_chunk_edges (text : List Char) : List Char :=
  if text = [] then []
  else
    let t1 := drop_blank_lead text.length text
    let t2 := strip_blank_tail t1
    rdropWhileP (fun ch => ch == '\r') (t2.dropWhile (fun ch => ch == '\r'))

/-- The window of one loop iteration of `chunk_message_smart`, including
the `if not window` fallback to a single character. -/
def chunkWindow (rest : List Char) (max_bytes : Nat) : List Char :=
  if utf8_window rest max_bytes = [] then rest.take 1 else utf8_window rest max_bytes

/-- The `split_idx = max(1, min(split_idx, len(window)))` of one loop
iteration, after `_find_split_index` and
`_adjust_split_for_blank_and_short`. -/
def chunkSplit (rest : List Char) (max_bytes : Nat) : Nat :=
  max 1 (min (adjust_split_for_blank_and_short (chunkWindow rest max_bytes)
      (find_split_index (chunkWindow rest max_bytes)))
    (chunkWindow rest max_bytes).length)

/-- `if cleaned: chunks.append(cleaned)`. -/
def emit (cleaned : List Char) : List (List Char) :=
  if cleaned = [] then [] else [cleaned]

/-- The `while idx < length` loop of `chunk_message_smart`, phrased on the
remaining suffix `payload[idx:]`.  The first branch is
`window_end >= length` (the window covers the rest).  The fuel is the
length of the whole message: every iteration consumes at least one
character (`split_idx >= 1`), so the fuel never runs out before the
suffix does. -/
def chunkLoopAux (max_bytes : Nat) : Nat → List Char → List (List Char)
  | 0, _ => []
  | _ + 1, [] => []
  | fuel + 1, ch :: cs =>
    if (ch :: cs).length ≤ (chunkWindow (ch :: cs) max_bytes).length then
      emit (trim_chunk_edges (chunkWindow (ch :: cs) max_bytes))
    else
      emit (trim_chunk_edges ((chunkWindow (ch :: cs) max_bytes).take (chunkSplit (ch :: cs) max_bytes)))
        ++ chunkLoopAux max_bytes fuel ((ch :: cs).drop (chunkSplit (ch :: cs) max_bytes))

/-- `max(1, min(chunk_size, MAX_DM_BYTES))`, the effective byte ceiling. -/
def max_bytes_of (chunk_size : Int) : Nat :=
  (max 1 (min chunk_size MAX_DM_BYTES)).toNat

/-- `chunk_message_smart` (the final line is `return chunks or [""]`). -/
def chunk_message_smart (message : List Char) (chunk_size : Int) : List (List Char) :=
  if message = [] then [[]]
  else if chunkLoopAux (max_bytes_of chunk_size) message.length message = [] then [[]]
  else chunkLoopAux (max_bytes_of chunk_size) message.length message

end chunker

/-! ## `src/gopherlib.py` -/

namespace gopherlib

def DEFAULT_PORT : Int := 70

structure GopherURL where
  host : List Char
  port : Int
  type : List Char
  selector : List Char
  deriving DecidableEq

/-- The recognized Gopher type alphabet of `parse_gopher_url`. -/
def valid_types : List Char := "0123456789+ghIisTtP;,dcruwWXsMT".toList

/-- The message of the `ValueError` that Python `int()` raises (its exact
text carries no weight in any claim). -/
def int_value_error (s : List Char) : List Char :=
  "invalid literal for int() with base 10: ".toList ++ s

/-- The tail of `parse_gopher_url` once host and port are fixed: the type
character is split off the remainder, falling back to type `1` with the
whole remainder as selector when the character is not recognized. -/
def parsed_url (host : List Char) (port : Int) (selector_with_type : List Char) : GopherURL :=
  match selector_with_type with
  | [] => { host := host, port := port, type := "1".toList, selector := [] }
  | t :: ts =>
    if t ∈ valid_types then { host := host, port := port, type := [t], selector := ts }
    else { host := host, port := port, type := "1".toList, selector := t :: ts }

/-- `parse_gopher_url`.  An `Except.error` is the `ValueError` the Python
function raises (either its own, or the one `int(port_str)` raises). -/
def parse_gopher_url (url : List Char) : Except (List Char) GopherURL :=
  if pyStartsWith (url.map Char.toLower) "gopher://".toList then
    -- `host_port` is `(splitFirst (url.drop 9) '/').1`, the selector-with-type
    -- remainder is `.2`; splitting `host_port` on the first colon gives the
    -- host as `.1` and the optional port string as `.2`.
    match (splitFirst (splitFirst (url.drop 9) '/').1 ':').2 with
    | some port_str =>
      match pyInt? port_str with
      | some port =>
        .ok (parsed_url (splitFirst (splitFirst (url.drop 9) '/').1 ':').1 port
          ((splitFirst (url.drop 9) '/').2.getD []))
      | none => .error (int_value_error port_str)
    | none =>
      .ok (parsed_url (splitFirst (splitFirst (url.drop 9) '/').1 ':').1 DEFAULT_PORT
        ((splitFirst (url.drop 9) '/').2.getD []))
  else .error "URL must start with gopher://".toList

/-- Gopher+ attribute blocks: a Python `dict` keyed by upper-cased labels,
holding line lists; modelled as an insertion-ordered association list. -/
abbrev Attrs := List (List Char × List (List Char))

structure MenuEntry where
  type : List Char
  display : List Char
  selector : List Char
  host : List Char
  port : Int
  attributes : Option Attrs
  deriving DecidableEq

/-- `_make_menu_entry`.  Note `attributes.copy() if attributes else None`:
an empty dict is falsy in Python, so an empty mapping is stored as `None`. -/
def make_menu_entry (type_char display selector host port : List Char)
    (attributes : Option Attrs) : MenuEntry :=
  { type := if type_char = [] then "i".toList else type_char
    display := display
    selector := selector
    host := host
    port :=
      if port = [] then DEFAULT_PORT
      else
        match pyInt? port with
        | some n => n
        | none => DEFAULT_PORT
    attributes :=
      match attributes with
      | some (kv :: rest) => some (kv :: rest)
      | _ => none }

/-- One classic menu line (`line[0]` plus tab-separated fields), for a
non-empty line. -/
def menu_line_entry (line : List Char) : MenuEntry :=
  match line with
  | [] => make_menu_entry [] [] [] [] [] none
  | t :: rest =>
    make_menu_entry [t] ((splitOnChar '\t' rest).getD 0 []) ((splitOnChar '\t' rest).getD 1 [])
      ((splitOnChar '\t' rest).getD 2 []) ((splitOnChar '\t' rest).getD 3 []) none

/-- `parse_menu`: classic menu decoding up to a lone `.` terminator. -/
def parse_menu : List (List Char) → List MenuEntry
  | [] => []
  | line :: ls =>
    if pyStrip line = ['.'] then []
    else if line = [] then parse_menu ls
    else menu_line_entry line :: parse_menu ls

/-- `_make_menu_entry_from_info`: the remainder of a `+INFO:` line parsed
like a classic menu line, constructed with an empty attributes mapping
(which `make_menu_entry` then stores as `none`, the empty dict being
falsy). -/
def make_menu_entry_from_info (info_line : List Char) : MenuEntry :=
  match info_line with
  | [] => make_menu_entry "i".toList [] [] [] [] (some [])
  | t :: rest =>
    make_menu_entry [t] (((if rest = [] then [] else splitOnChar '\t' rest)).getD 0 [])
      ((if rest = [] then [] else splitOnChar '\t' rest).getD 1 [])
      ((if rest = [] then [] else splitOnChar '\t' rest).getD 2 [])
      ((if rest = [] then [] else splitOnChar '\t' rest).getD 3 []) (some [])

/-- `dict.setdefault(k, []).extend(vs)` on an insertion-ordered mapping. -/
def dictExtend (attrs : Attrs) (k : List Char) (vs : List (List Char)) : Attrs :=
  match attrs with
  | [] => [(k, vs)]
  | (k0, v0) :: rest => if k0 = k then (k0, v0 ++ vs) :: rest else (k0, v0) :: dictExtend rest k vs

/-- The loop state of `parse_menu_plus`.  Python appends the current entry
to the output list and keeps mutating it through the shared reference;
here `done` holds the completed entries and `cur` the entry still open for
attribute flushes, so the output is `done ++ cur.toList`.  `halted` models
the `break`. -/
structure PlusState where
  done : List MenuEntry
  cur : Option MenuEntry
  curAttr : Option (List Char)
  buf : List (List Char)
  halted : Bool
  deriving DecidableEq

def initPlus : PlusState := ⟨[], none, none, [], false⟩

/-- Truthiness of `current_attr` (Python treats the empty label as falsy). -/
def plusTruthy (st : PlusState) : Bool :=
  match st.curAttr with
  | some (_ :: _) => true
  | _ => false

/-- `_flush_attr`: append the buffered lines to the current entry under
the open label; with no current entry or no open label, just clear. -/
def flushAttr (st : PlusState) : PlusState :=
  match st.cur, st.curAttr with
  | some entry, some label =>
    { st with
      cur := some { entry with attributes := some (dictExtend (entry.attributes.getD []) label st.buf) }
      buf := []
      curAttr := none }
  | _, _ => { st with buf := [], curAttr := none }

/-- `line.startswith("+") and line.endswith(":") and ":" in line[1:]`. -/
def isAttrLabel (line : List Char) : Bool :=
  pyStartsWith line ['+'] && pyEndsWith line [':'] && (line.drop 1).contains ':'

/-- `line[1:-1].upper()`. -/
def attrLabel (line : List Char) : List Char :=
  ((line.drop 1).dropLast).map Char.toUpper

/-- One iteration of the `parse_menu_plus` loop. -/
def stepPlus (st : PlusState) (raw_line : List Char) : PlusState :=
  if st.halted then st
  else
    let line := rdropWhileP (fun ch => ch == '\r') raw_line
    if line = [] then st
    else if line = ['.'] then
      if plusTruthy st then flushAttr st else { st with halted := true }
    else if pyStartsWith line "+INFO:".toList then
      let st1 := if plusTruthy st then flushAttr st else st
      if line.drop 6 = [] then st1
      else
        { st1 with
          done := st1.done ++ st1.cur.toList
          cur := some (make_menu_entry_from_info (line.drop 6)) }
    else if isAttrLabel line then
      let st1 := if plusTruthy st then flushAttr st else st
      { st1 with curAttr := some (attrLabel line), buf := [] }
    else if plusTruthy st then { st with buf := st.buf ++ [line] }
    else st

/-- The `parse_menu_plus` loop over all response lines. -/
def runPlus (lines : List (List Char)) : PlusState :=
  lines.foldl stepPlus initPlus

/-- `parse_menu_plus`: run the loop, apply the final
`if current_attr: _flush_attr()`, and return the entry list. -/
def parse_menu_plus (lines : List (List Char)) : List MenuEntry :=
  if plusTruthy (runPlus lines) then
    (flushAttr (runPlus lines)).done ++ (flushAttr (runPlus lines)).cur.toList
  else (runPlus lines).done ++ (runPlus lines).cur.toList

/-- `_looks_like_gopher_plus`: does the first non-empty line start with
`+INFO:`. -/
def looks_like_gopher_plus : List (List Char) → Bool
  | [] => false
  | l :: ls => if l = [] then looks_like_gopher_plus ls else pyStartsWith l "+INFO:".toList

/-- The network oracle standing for `_recv_all_lines`: host, port,
selector and suffix to the decoded response lines, or the message of the
exception the socket layer raised. -/
abbrev Net := List Char → Int → List Char → List Char → Except (List Char) (List (List Char))

/-- `_fetch_menu`: probe with the `\t+` suffix, decode as Gopher+ when the
heuristic fires, and otherwise (or on any probe error) issue the plain
request, whose failure is not caught. -/
def fetch_menu (net : Net) (host : List Char) (port : Int) (selector : List Char) :
    Except (List Char) (List MenuEntry) :=
  match net host port selector "\t+".toList with
  | .ok plus_lines =>
    if looks_like_gopher_plus plus_lines then .ok (parse_menu_plus plus_lines)
    else (net host port selector []).map parse_menu
  | .error _ => (net host port selector []).map parse_menu

/-- The dynamically typed payload of a `(kind, payload)` fetch result, one
variant per view kind. -/
inductive Payload where
  | menuP : List MenuEntry → Payload
  | searchP : MenuEntry → Payload
  | fileP : List (List Char) → Payload
  | binaryP : Nat → List Char → Payload
  deriving DecidableEq

/-- `GopherClient.fetch`.  Only the binary fallback path catches the
oracle's failure. -/
def fetch (net : Net) (url : GopherURL) : Except (List Char) (List Char × Payload) :=
  if url.type.map Char.toLower = "1".toList then
    (fetch_menu net url.host url.port url.selector).map (fun es => ("menu".toList, .menuP es))
  else if url.type.map Char.toLower = "7".toList ∨ url.type.map Char.toLower = "t".toList then
    .ok ("search".toList,
      .searchP
        { type := url.type, display := "[SEARCH]".toList, selector := url.selector
          host := url.host, port := url.port, attributes := none })
  else if url.type = "0".toList then
    (net url.host url.port url.selector []).map (fun ls => ("file".toList, .fileP ls))
  else
    match net url.host url.port url.selector [] with
    | .ok data_lines =>
      .ok ("binary".toList, .binaryP (chunker.utf8Len (pyJoin ['\n'] data_lines)) "Non-text gopher type".toList)
    | .error e => .ok ("binary".toList, .binaryP 0 ("Error fetching: ".toList ++ e))

/-- `GopherClient.search`: append the query payload after a tab and fetch
a menu at the endpoint. -/
def client_search (net : Net) (endpoint : MenuEntry) (query_payload : List Char) :
    Except (List Char) (List Char × Payload) :=
  (fetch_menu net endpoint.host endpoint.port
      (if query_payload = [] then endpoint.selector else endpoint.selector ++ '\t' :: query_payload)).map
    (fun es => ("menu".toList, .menuP es))

end gopherlib

/-! ## `src/main.py` -/

namespace main

open gopherlib

def MENU_PAGE_SIZE : Nat := 10
def FILE_PAGE_SIZE : Nat := 20

/-- `ViewState.__init__` fields (offsets start at 0, no pending search). -/
structure ViewState where
  url : GopherURL
  view_kind : List Char
  payload : Payload
  menu_offset : Nat
  file_offset : Nat
  pending_search_endpoint : Option MenuEntry
  deriving DecidableEq

def mkViewState (url : GopherURL) (view_kind : List Char) (payload : Payload) : ViewState :=
  ⟨url, view_kind, payload, 0, 0, none⟩

/-- A `Session`.  Python aliases `current` with the top of `history` (they
are the same object); in this immutable model offset and pending-search
updates are written to `current` only, which is faithful for every
operation the claims quantify over (none of them re-reads a mutated view
through `history`). -/
structure Session where
  history : List ViewState
  current : Option ViewState
  deriving DecidableEq

def emptySession : Session := ⟨[], none⟩

/-- The entry list of a menu payload (`self.current.payload` where the
kind guarantees a list of entries). -/
def payloadEntries : Payload → List MenuEntry
  | .menuP es => es
  | _ => []

/-- The line list of a file payload. -/
def payloadLines : Payload → List (List Char)
  | .fileP ls => ls
  | _ => []

/-- The `MenuEntry` of a search payload (the value
`Session.open_url` stores into `pending_search_endpoint`). -/
def payloadEntry : Payload → Option MenuEntry
  | .searchP e => some e
  | _ => none

/-- `Session._selectable_entries`: menu entries whose type is not `i`. -/
def selectable_entries (s : Session) : List MenuEntry :=
  match s.current with
  | none => []
  | some vs =>
    if vs.view_kind = "menu".toList then (payloadEntries vs.payload).filter (fun e => !(e.type == "i".toList))
    else []

/-- `Session._search_fields`: the first of the `FIELDS`/`FIELD`/
`SEARCHFIELDS` keys present, its lines stripped and blanks removed. -/
def fields_of_attrs (attrs : Attrs) : List (List Char) → List (List Char)
  | [] => []
  | k :: ks =>
    match (attrs.find? (fun p => p.1 == k)).map (fun p => p.2) with
    | some lines => (lines.map pyStrip).filter (fun l => !(l == []))
    | none => fields_of_attrs attrs ks

def search_fields (endpoint : Option MenuEntry) : List (List Char) :=
  match endpoint with
  | none => []
  | some ep =>
    match ep.attributes with
    | some (kv :: rest) =>
      fields_of_attrs (kv :: rest) ["FIELDS".toList, "FIELD".toList, "SEARCHFIELDS".toList]
    | _ => []

/-- `Session._search_prompts`: the stripped non-blank lines of the
`PROMPT` and `ABSTRACT` keys, in that order. -/
def prompts_of_attrs (attrs : Attrs) : List (List Char) → List (List Char)
  | [] => []
  | k :: ks =>
    (match (attrs.find? (fun p => p.1 == k)).map (fun p => p.2) with
      | some lines => (lines.map pyStrip).filter (fun l => !(l == []))
      | none => []) ++ prompts_of_attrs attrs ks

def search_prompts (endpoint : Option MenuEntry) : List (List Char) :=
  match endpoint with
  | none => []
  | some ep =>
    match ep.attributes with
    | some (kv :: rest) => prompts_of_attrs (kv :: rest) ["PROMPT".toList, "ABSTRACT".toList]
    | _ => []

/-- `Session._render_search_prompt`. -/
def render_search_prompt (s : Session) (display_title : Option (List Char)) : List Char :=
  let title := match display_title with
    | some t => "Search: ".toList ++ t
    | none => "Search".toList
  let endpoint := match s.current with
    | some vs => vs.pending_search_endpoint
    | none => none
  let veronica := match endpoint with
    | some ep => if ep.type.map Char.toUpper = "T".toList then ["(Veronica/WAIS search)".toList] else []
    | none => []
  let fields := search_fields endpoint
  let prompts := search_prompts endpoint
  let fieldLines :=
    if fields = [] then ["Send: s <terms>".toList]
    else
      ["Fields: ".toList ++ pyJoin ", ".toList fields,
        "Send: s field=value ... (use quotes for spaces)".toList]
  let noteLines :=
    if prompts = [] then []
    else "Notes:".toList :: prompts.map (fun n => "  ".toList ++ n)
  pyJoin "\n".toList ([title] ++ veronica ++ fieldLines ++ noteLines)

/-- The `gopher://host:port/type+selector` projection used by
`Session.current_url` and `Session.render` headers. -/
def format_gopher_url (u : GopherURL) : List Char :=
  "gopher://".toList ++ u.host ++ [':'] ++ intRepr u.port ++ ['/'] ++ u.type ++ u.selector

/-- `Session.current_url` (the `url.selector or ""` of the source is the
identity on this representation). -/
def current_url (s : Session) : List Char :=
  match s.current with
  | none => "Nothing open yet.".toList
  | some vs =>
    "Current URL:\n".toList ++ format_gopher_url vs.url ++ "\n\nUse: u ".toList ++ format_gopher_url vs.url

/-- `Session.render`. -/
def render (s : Session) : List Char :=
  match s.current with
  | none => "Nothing open yet.".toList
  | some vs =>
    let header := ['['] ++ format_gopher_url vs.url ++ [']']
    if vs.view_kind = "menu".toList then
      let entries := selectable_entries s
      if entries = [] then header ++ "\n(Empty menu)".toList
      else
        let page := (entries.drop vs.menu_offset).take MENU_PAGE_SIZE
        let counts := "Showing items ".toList ++ natRepr (vs.menu_offset + 1) ++ ['-'] ++
          natRepr (vs.menu_offset + page.length) ++ " of ".toList ++ natRepr entries.length ++ [':']
        let rows := page.enum.map (fun p =>
          natRepr p.1 ++ ") [".toList ++ p.2.type ++ "] ".toList ++
            (if p.2.display = [] then "(no title)".toList else p.2.display))
        pyJoin "\n".toList ([header, counts] ++ rows)
    else if vs.view_kind = "file".toList then
      let lines := payloadLines vs.payload
      let page := (lines.drop vs.file_offset).take FILE_PAGE_SIZE
      header ++ ['\n'] ++ pyJoin "\n".toList page ++ "\n[Lines ".toList ++
        natRepr (vs.file_offset + 1) ++ ['-'] ++ natRepr (vs.file_offset + page.length) ++
        " of ".toList ++ natRepr lines.length ++ [']']
    else if vs.view_kind = "search".toList then render_search_prompt s none
    else if vs.view_kind = "binary".toList then
      match vs.payload with
      | .binaryP blen note =>
        header ++ "\n(Binary content, ".toList ++ natRepr blen ++ " bytes) ".toList ++ note
      | _ => header ++ "\n(Unknown view)".toList
    else header ++ "\n(Unknown view)".toList

/-- `Session.open_url`.  The pair is (result, session after the call): an
`Except.error` result is the exception propagating out of the method, and
the session component then records what the object state was at that
point. -/
def open_url (s : Session) (url_str : List Char) (net : Net) :
    Except (List Char) (List Char) × Session :=
  match parse_gopher_url url_str with
  | .error e => (.ok ("Invalid URL: ".toList ++ e), s)
  | .ok gurl =>
    match fetch net gurl with
    | .error e => (.error e, s)
    | .ok (view_kind, payload) =>
      if view_kind = "search".toList then
        let vs := { mkViewState gurl view_kind payload with pending_search_endpoint := payloadEntry payload }
        let s2 := { s with current := some vs }
        (.ok (render_search_prompt s2 none), s2)
      else
        let vs := mkViewState gurl view_kind payload
        let s2 : Session := { history := [vs], current := some vs }
        (.ok (render s2), s2)

/-- A placeholder entry for the unreachable out-of-range index of
`page_entries[idx]` (the bound is checked just before). -/
def dummy_entry : MenuEntry := ⟨[], [], [], [], 0, none⟩

/-- The entry window of the current menu page,
`entries[start:start + MENU_PAGE_SIZE]`. -/
def select_page (s : Session) (vs : ViewState) : List MenuEntry :=
  ((selectable_entries s).drop vs.menu_offset).take MENU_PAGE_SIZE

/-- The descriptor of a selected entry, inheriting host and port from the
current view when the entry elides them (`entry.host or ...`,
`entry.port or ...`; an empty host and a zero port are falsy). -/
def entry_descriptor (vs : ViewState) (entry : MenuEntry) : GopherURL :=
  { host := if entry.host = [] then vs.url.host else entry.host
    port := if entry.port = 0 then vs.url.port else entry.port
    type := entry.type
    selector := entry.selector }

/-- `Session.select_index`. -/
def select_index (s : Session) (idx : Nat) (net : Net) :
    Except (List Char) (List Char) × Session :=
  match s.current with
  | none => (.ok "Not in a menu; numbers apply only to menu listings.".toList, s)
  | some vs =>
    if vs.view_kind = "menu".toList then
      if (select_page s vs).length ≤ idx then (.ok "Invalid selection on this page.".toList, s)
      else if ((select_page s vs).getD idx dummy_entry).type.map Char.toLower = "7".toList ∨
          ((select_page s vs).getD idx dummy_entry).type.map Char.toLower = "t".toList then
        let vs2 := { vs with pending_search_endpoint := some ((select_page s vs).getD idx dummy_entry) }
        let s2 := { s with current := some vs2 }
        (.ok (render_search_prompt s2 (some ((select_page s vs).getD idx dummy_entry).display)), s2)
      else
        match fetch net (entry_descriptor vs ((select_page s vs).getD idx dummy_entry)) with
        | .error e => (.error e, s)
        | .ok (view_kind, payload) =>
          let new_vs := mkViewState (entry_descriptor vs ((select_page s vs).getD idx dummy_entry))
            view_kind payload
          let s2 : Session := { history := s.history ++ [new_vs], current := some new_vs }
          (.ok (render s2), s2)
    else (.ok "Not in a menu; numbers apply only to menu listings.".toList, s)

/-- A POSIX-mode model of `shlex.split`: whitespace splits tokens, single
quotes are literal, double quotes let a backslash escape the quote and the
backslash, a backslash outside quotes escapes the next character.  (Python
raises on an unbalanced quote; here the partial token is emitted, a
divergence no claim touches.) -/
def shlexAux : Nat → List Char → Option Char → List Char → Bool → List (List Char) → List (List Char)
  | _, [], some _, tok, _, acc => acc ++ [tok]
  | _, [], none, tok, inTok, acc => if inTok then acc ++ [tok] else acc
  | 0, _ :: _, _, tok, inTok, acc => if inTok then acc ++ [tok] else acc
  | fuel + 1, c :: rest, some q, tok, inTok, acc =>
    if c = q then shlexAux fuel rest none tok inTok acc
    else if q = '"' then
      match c, rest with
      | '\\', d :: rest2 =>
        if d = '"' ∨ d = '\\' then shlexAux fuel rest2 (some q) (tok ++ [d]) inTok acc
        else shlexAux fuel rest2 (some q) (tok ++ ['\\', d]) inTok acc
      | _, _ => shlexAux fuel rest (some q) (tok ++ [c]) inTok acc
    else shlexAux fuel rest (some q) (tok ++ [c]) inTok acc
  | fuel + 1, c :: rest, none, tok, inTok, acc =>
    if isPyWs c then
      if inTok then shlexAux fuel rest none [] false (acc ++ [tok])
      else shlexAux fuel rest none [] false acc
    else if c = '\'' ∨ c = '"' then shlexAux fuel rest (some c) tok true acc
    else
      match c, rest with
      | '\\', d :: rest2 => shlexAux fuel rest2 none (tok ++ [d]) true acc
      | '\\', [] => if inTok then acc ++ [tok] else acc
      | _, _ => shlexAux fuel rest none (tok ++ [c]) true acc

def shlexSplit (s : List Char) : List (List Char) :=
  shlexAux s.length s none [] false []

/-- A `key=value` mapping with Python `dict` semantics: inserting an
existing key updates it in place, `pop` removes it, values iterate in
insertion order. -/
abbrev PyDict := List (List Char × List Char)

def dictInsert (d : PyDict) (k v : List Char) : PyDict :=
  match d with
  | [] => [(k, v)]
  | (k0, v0) :: rest => if k0 = k then (k0, v) :: rest else (k0, v0) :: dictInsert rest k v

def dictPop (d : PyDict) (k : List Char) : Option (List Char × PyDict) :=
  match d with
  | [] => none
  | (k0, v0) :: rest =>
    if k0 = k then some (v0, rest)
    else
      match dictPop rest k with
      | some (v, rest2) => some (v, (k0, v0) :: rest2)
      | none => none

def dictValues (d : PyDict) : List (List Char) := d.map (fun p => p.2)

/-- The token partition of `Session._build_search_query`: `key=value`
tokens go to the named mapping (key stripped and lower-cased), the rest
keep their order as positional tokens. -/
def partitionTokens (tokens : List (List Char)) : PyDict × List (List Char) :=
  tokens.foldl
    (fun acc token =>
      if token.contains '=' then
        match splitFirst token '=' with
        | (k, some v) => (dictInsert acc.1 ((pyStrip k).map Char.toLower) v, acc.2)
        | (_, none) => acc
      else (acc.1, acc.2 ++ [token]))
    ([], [])

/-- The field-assignment loop of `Session._build_search_query`: for each
declared field take the named value (popped once), else the next
positional token, else the empty string; returns the assigned values and
the leftovers. -/
def assignFields : List (List Char) → PyDict → List (List Char) →
    List (List Char) × PyDict × List (List Char)
  | [], named, positional => ([], named, positional)
  | f :: fs, named, positional =>
    match dictPop named (f.map Char.toLower) with
    | some (v, named2) =>
      match assignFields fs named2 positional with
      | (vals, n2, p2) => (v :: vals, n2, p2)
    | none =>
      match positional with
      | p :: ps =>
        match assignFields fs named ps with
        | (vals, n2, p2) => (p :: vals, n2, p2)
      | [] =>
        match assignFields fs named [] with
        | (vals, n2, p2) => ([] :: vals, n2, p2)

/-- `Session._build_search_query` from the tokenized input onward
(`residual = leftover positional + leftover named values`, and extending
with an empty residual changes nothing). -/
def build_query_from_tokens (fields : List (List Char)) (tokens : List (List Char)) : List Char :=
  if tokens = [] then []
  else if fields = [] then pyJoin ['\t'] [pyJoin [' '] tokens]
  else
    match assignFields fields (partitionTokens tokens).1 (partitionTokens tokens).2 with
    | (vals, namedLeft, posLeft) => pyJoin ['\t'] (vals ++ posLeft ++ dictValues namedLeft)

/-- `Session._build_search_query`. -/
def build_search_query (endpoint : MenuEntry) (terms : List Char) : List Char :=
  build_query_from_tokens (search_fields (some endpoint)) (shlexSplit terms)

/-- `Session.search`. -/
def search_op (s : Session) (terms : List Char) (net : Net) :
    Except (List Char) (List Char) × Session :=
  match s.current with
  | none => (.ok "Open a gopher search endpoint first.".toList, s)
  | some vs =>
    match vs.pending_search_endpoint with
    | none =>
      -- the source quotes the command with apostrophes; plain text here
      (.ok "No search pending. Select a type-7/T item first, then use s <terms>.".toList, s)
    | some endpoint =>
      if pyStrip terms = [] then (.ok (render_search_prompt s none), s)
      else if build_search_query endpoint terms = [] then
        (.ok "Provide search terms (or field=value pairs) for this endpoint.".toList, s)
      else
        match client_search net endpoint (build_search_query endpoint terms) with
        | .error e => (.error e, s)
        | .ok (view_kind, payload) =>
          let new_url : GopherURL :=
            { host := endpoint.host, port := endpoint.port, type := "1".toList
              selector := endpoint.selector }
          let new_vs := mkViewState new_url view_kind payload
          let s2 : Session := { history := s.history ++ [new_vs], current := some new_vs }
          (.ok (render s2), s2)

/-- `Session.next_page`. -/
def next_page (s : Session) : List Char × Session :=
  match s.current with
  | none => ("Nothing open yet.".toList, s)
  | some vs =>
    if vs.view_kind = "menu".toList then
      if (selectable_entries s).length ≤ vs.menu_offset + MENU_PAGE_SIZE then
        ("End of menu.".toList, s)
      else
        let s2 := { s with current := some { vs with menu_offset := vs.menu_offset + MENU_PAGE_SIZE } }
        (render s2, s2)
    else if vs.view_kind = "file".toList then
      if (payloadLines vs.payload).length ≤ vs.file_offset + FILE_PAGE_SIZE then
        ("End of file.".toList, s)
      else
        let s2 := { s with current := some { vs with file_offset := vs.file_offset + FILE_PAGE_SIZE } }
        (render s2, s2)
    else ("Paging not applicable for this view.".toList, s)

/-- `Session.prev_page` (`max(0, offset - width)` is the truncated
subtraction of `Nat`). -/
def prev_page (s : Session) : List Char × Session :=
  match s.current with
  | none => ("Nothing open yet.".toList, s)
  | some vs =>
    if vs.view_kind = "menu".toList then
      if vs.menu_offset = 0 then ("Already at start.".toList, s)
      else
        let s2 := { s with current := some { vs with menu_offset := vs.menu_offset - MENU_PAGE_SIZE } }
        (render s2, s2)
    else if vs.view_kind = "file".toList then
      if vs.file_offset = 0 then ("Already at start.".toList, s)
      else
        let s2 := { s with current := some { vs with file_offset := vs.file_offset - FILE_PAGE_SIZE } }
        (render s2, s2)
    else ("Paging not applicable for this view.".toList, s)

/-- The search-query builder as the specification words it (section 4.4):
walk the declared fields once, preferring the named value (consumed once,
case-insensitive), else the next positional token, else an empty string;
then append leftover positional tokens and leftover named values and join
everything with tabs; with no declared fields, one free-text value.  This
definition follows the wording of the spec, to be compared with
`build_query_from_tokens`, which follows the source. -/
def build_query_spec (fields : List (List Char)) (tokens : List (List Char)) : List Char :=
  if tokens = [] then []
  else if fields = [] then pyJoin ['\t'] [pyJoin [' '] tokens]
  else
    let r := fields.foldl
      (fun acc f =>
        match dictPop acc.2.1 (f.map Char.toLower) with
        | some (v, named2) => (acc.1 ++ [v], named2, acc.2.2)
        | none =>
          match acc.2.2 with
          | p :: ps => (acc.1 ++ [p], acc.2.1, ps)
          | [] => (acc.1 ++ [([] : List Char)], acc.2.1, ([] : List (List Char))))
      (([] : List (List Char)), (partitionTokens tokens).1, (partitionTokens tokens).2)
    pyJoin ['\t'] (r.1 ++ r.2.2 ++ dictValues r.2.1)

end main

/-! ## Generic list facts used by the proofs -/

/-- `dropWhile` removes an initial segment. -/
theorem dropWhile_eq_drop (p : Char → Bool) : ∀ l : List Char, ∃ k, l.dropWhile p = l.drop k
  | [] => ⟨0, rfl⟩
  | c :: cs => by
    by_cases h : p c
    · obtain ⟨k, hk⟩ := dropWhile_eq_drop p cs
      exact ⟨k + 1, by simp [List.dropWhile, h, hk]⟩
    · exact ⟨0, by simp [List.dropWhile, h]⟩

/-- Reversing, dropping, and reversing again is taking an initial
segment. -/
theorem reverse_drop_reverse (l : List Char) (k : Nat) :
    (l.reverse.drop k).reverse = l.take (l.length - k) := by
  rcases le_or_lt k l.length with h | h
  · have h2 := @List.reverse_take Char l (l.length - k)
    have h3 : l.length - (l.length - k) = k := by omega
    rw [h3] at h2
    rw [← h2, List.reverse_reverse]
  · have h1 : l.reverse.drop k = [] := by
      apply List.drop_eq_nil_of_le
      simpa using Nat.le_of_lt h
    have h2 : l.length - k = 0 := by omega
    simp [h1, h2]

/-- `rdropWhileP` keeps an initial segment. -/
theorem rdropWhileP_eq_take (p : Char → Bool) (l : List Char) :
    ∃ k, rdropWhileP p l = l.take k := by
  obtain ⟨k, hk⟩ := dropWhile_eq_drop p l.reverse
  exact ⟨l.length - k, by rw [rdropWhileP, hk, reverse_drop_reverse]⟩

/-- Contiguous slices (`drop` then `take`) compose. -/
theorem slice_trans {a b c : List Char} (h1 : ∃ i j, a = (b.drop i).take j)
    (h2 : ∃ i j, b = (c.drop i).take j) : ∃ i j, a = (c.drop i).take j := by
  obtain ⟨i1, j1, rfl⟩ := h1
  obtain ⟨i2, j2, rfl⟩ := h2
  refine ⟨i2 + i1, min j1 (j2 - i1), ?_⟩
  rw [List.drop_take, List.take_take, List.drop_drop]

theorem slice_of_take (l : List Char) (n : Nat) : ∃ i j, l.take n = (l.drop i).take j :=
  ⟨0, n, by rw [List.drop_zero]⟩

theorem slice_of_drop (l : List Char) (n : Nat) : ∃ i j, l.drop n = (l.drop i).take j :=
  ⟨n, (l.drop n).length, (List.take_length _).symm⟩

namespace chunker

/-! ## Facts about the chunker -/

theorem utf8_char_len_le (ch : Char) : utf8_char_len ch ≤ 4 := by
  simp only [utf8_char_len]
  split_ifs <;> omega

theorem utf8Len_append (a b : List Char) : utf8Len (a ++ b) = utf8Len a + utf8Len b := by
  simp [utf8Len]

theorem utf8Len_take_le (l : List Char) (n : Nat) : utf8Len (l.take n) ≤ utf8Len l := by
  conv_rhs => rw [← List.take_append_drop n l]
  rw [utf8Len_append]
  exact Nat.le_add_right _ _

theorem utf8Len_drop_le (l : List Char) (n : Nat) : utf8Len (l.drop n) ≤ utf8Len l := by
  conv_rhs => rw [← List.take_append_drop n l]
  rw [utf8Len_append]
  exact Nat.le_add_left _ _

theorem utf8Len_slice_le (l : List Char) (i j : Nat) :
    utf8Len ((l.drop i).take j) ≤ utf8Len l :=
  Nat.le_trans (utf8Len_take_le _ _) (utf8Len_drop_le _ _)

theorem utf8Len_take_one_le (l : List Char) : utf8Len (l.take 1) ≤ 4 := by
  cases l with
  | nil => simp [utf8Len]
  | cons c cs => simpa [utf8Len] using utf8_char_len_le c

/-- The scanning loop respects the byte budget. -/
theorem utf8_window_core_le :
    ∀ (l : List Char) (used mb : Nat), used ≤ mb →
      used + utf8Len (utf8_window_core l used mb) ≤ mb
  | [], _, _, h => by simpa [utf8_window_core, utf8Len] using h
  | c :: cs, used, mb, h => by
    rw [utf8_window_core]
    split
    · simpa [utf8Len] using h
    · rename_i hle
      push_neg at hle
      have ih := utf8_window_core_le cs (used + utf8_char_len c) mb hle
      simp only [utf8Len, List.map_cons, List.sum_cons] at ih ⊢
      omega

/-- The scanning loop returns an initial segment. -/
theorem utf8_window_core_take :
    ∀ (l : List Char) (used mb : Nat), ∃ k, utf8_window_core l used mb = l.take k
  | [], _, _ => ⟨0, rfl⟩
  | c :: cs, used, mb => by
    rw [utf8_window_core]
    split
    · exact ⟨0, rfl⟩
    · obtain ⟨k, hk⟩ := utf8_window_core_take cs (used + utf8_char_len c) mb
      exact ⟨k + 1, by rw [hk]; rfl⟩

/-- The window is within the budget except when a lone code point was
forced in, and a code point is at most 4 bytes. -/
theorem utf8_window_le (text : List Char) (mb : Nat) :
    utf8Len (utf8_window text mb) ≤ max mb 4 := by
  rw [utf8_window]
  split
  · exact Nat.le_trans (utf8Len_take_one_le _) (Nat.le_max_right _ _)
  · have := utf8_window_core_le text 0 mb (Nat.zero_le _)
    omega

theorem utf8_window_take (text : List Char) (mb : Nat) :
    ∃ k, utf8_window text mb = text.take k := by
  rw [utf8_window]
  split
  · exact ⟨1, rfl⟩
  · exact utf8_window_core_take text 0 mb

theorem chunkWindow_le (rest : List Char) (mb : Nat) :
    utf8Len (chunkWindow rest mb) ≤ max mb 4 := by
  rw [chunkWindow]
  split
  · exact Nat.le_trans (utf8Len_take_one_le _) (Nat.le_max_right _ _)
  · exact utf8_window_le rest mb

theorem chunkWindow_take (rest : List Char) (mb : Nat) :
    ∃ k, chunkWindow rest mb = rest.take k := by
  rw [chunkWindow]
  split
  · exact ⟨1, rfl⟩
  · exact utf8_window_take rest mb

theorem take_block_drop {s r : List Char} (h : take_block s = some r) : ∃ k, r = s.drop k := by
  rw [take_block] at h
  obtain ⟨k, hk⟩ := dropWhile_eq_drop (fun ch => ch == ' ' || ch == '\t') s
  rw [hk] at h
  split at h
  · rename_i heq
    refine ⟨k + 2, ?_⟩
    rw [← List.drop_drop, heq]
    injection h with h2
    rw [h2]
    rfl
  · rename_i heq
    refine ⟨k + 1, ?_⟩
    rw [← List.drop_drop, heq]
    injection h with h2
    rw [h2]
    rfl
  · exact absurd h (by simp)

theorem rev_take_block_drop {s r : List Char} (h : rev_take_block s = some r) :
    ∃ k, r = s.drop k := by
  rw [rev_take_block] at h
  obtain ⟨k, hk⟩ := dropWhile_eq_drop (fun ch => ch == ' ' || ch == '\t') s
  rw [hk] at h
  split at h
  · rename_i heq
    refine ⟨k + 2, ?_⟩
    rw [← List.drop_drop, heq]
    injection h with h2
    rw [h2]
    rfl
  · rename_i heq
    refine ⟨k + 1, ?_⟩
    rw [← List.drop_drop, heq]
    injection h with h2
    rw [h2]
    rfl
  · exact absurd h (by simp)

theorem drop_blank_lead_drop :
    ∀ (fuel : Nat) (s : List Char), ∃ k, drop_blank_lead fuel s = s.drop k
  | 0, s => ⟨0, rfl⟩
  | fuel + 1, s => by
    rw [drop_blank_lead]
    split
    · rename_i r hr
      obtain ⟨k1, hk1⟩ := take_block_drop hr
      obtain ⟨k2, hk2⟩ := drop_blank_lead_drop fuel r
      exact ⟨k1 + k2, by rw [hk2, hk1, List.drop_drop]⟩
    · exact ⟨0, rfl⟩

theorem rev_drop_blank_drop :
    ∀ (fuel : Nat) (s : List Char), ∃ k, rev_drop_blank fuel s = s.drop k
  | 0, s => ⟨0, rfl⟩
  | fuel + 1, s => by
    rw [rev_drop_blank]
    split
    · rename_i r hr
      obtain ⟨k1, hk1⟩ := rev_take_block_drop hr
      obtain ⟨k2, hk2⟩ := rev_drop_blank_drop fuel r
      exact ⟨k1 + k2, by rw [hk2, hk1, List.drop_drop]⟩
    · exact ⟨0, rfl⟩

theorem strip_blank_tail_take (s : List Char) : ∃ k, strip_blank_tail s = s.take k := by
  obtain ⟨k, hk⟩ := rev_drop_blank_drop s.length s.reverse
  exact ⟨s.length - k, by rw [strip_blank_tail, hk, reverse_drop_reverse]⟩

/-- Edge trimming yields a contiguous slice of its input. -/
theorem trim_chunk_edges_slice (t : List Char) :
    ∃ i j, trim_chunk_edges t = (t.drop i).take j := by
  rw [trim_chunk_edges]
  split
  · exact ⟨0, 0, by simp⟩
  · obtain ⟨k1, h1⟩ := drop_blank_lead_drop t.length t
    obtain ⟨k2, h2⟩ := strip_blank_tail_take (drop_blank_lead t.length t)
    obtain ⟨k3, h3⟩ := dropWhile_eq_drop (fun ch => ch == '\r') (strip_blank_tail (drop_blank_lead t.length t))
    obtain ⟨k4, h4⟩ :=
      rdropWhileP_eq_take (fun ch => ch == '\r')
        ((strip_blank_tail (drop_blank_lead t.length t)).dropWhile (fun ch => ch == '\r'))
    refine slice_trans ⟨0, k4, by rw [List.drop_zero]; exact h4⟩ ?_
    refine slice_trans ⟨k3, _, by rw [h3]; exact (List.take_length _).symm⟩ ?_
    refine slice_trans ⟨0, k2, by rw [List.drop_zero]; exact h2⟩ ?_
    exact ⟨k1, _, by rw [h1]; exact (List.take_length _).symm⟩

theorem trim_chunk_edges_le (t : List Char) :
    utf8Len (trim_chunk_edges t) ≤ utf8Len t := by
  obtain ⟨i, j, h⟩ := trim_chunk_edges_slice t
  rw [h]
  exact utf8Len_slice_le t i j

theorem emit_mem {c x : List Char} (h : c ∈ emit x) : c = x ∧ x ≠ [] := by
  by_cases hx : x = []
  · rw [emit, if_pos hx] at h
    exact absurd h (List.not_mem_nil c)
  · rw [emit, if_neg hx] at h
    exact ⟨List.mem_singleton.1 h, hx⟩

/-- Every chunk of the loop fits in `max max_bytes 4` UTF-8 bytes and is a
contiguous slice of the remaining text. -/
theorem chunkLoopAux_mem (mb : Nat) :
    ∀ (fuel : Nat) (rest c : List Char), c ∈ chunkLoopAux mb fuel rest →
      utf8Len c ≤ max mb 4 ∧ ∃ i j, c = (rest.drop i).take j
  | 0, _, c, h => absurd h (List.not_mem_nil c)
  | fuel + 1, [], c, h => absurd h (List.not_mem_nil c)
  | fuel + 1, ch :: cs, c, h => by
    rw [chunkLoopAux] at h
    split at h
    · obtain ⟨rfl, -⟩ := emit_mem h
      constructor
      · exact Nat.le_trans (trim_chunk_edges_le _) (chunkWindow_le _ _)
      · refine slice_trans (trim_chunk_edges_slice _) ?_
        obtain ⟨k, hk⟩ := chunkWindow_take (ch :: cs) mb
        exact ⟨0, k, by rw [List.drop_zero]; exact hk⟩
    · rcases List.mem_append.1 h with h1 | h2
      · obtain ⟨rfl, -⟩ := emit_mem h1
        constructor
        · exact Nat.le_trans (trim_chunk_edges_le _)
            (Nat.le_trans (utf8Len_take_le _ _) (chunkWindow_le _ _))
        · refine slice_trans (trim_chunk_edges_slice _) ?_
          refine slice_trans (slice_of_take _ _) ?_
          obtain ⟨k, hk⟩ := chunkWindow_take (ch :: cs) mb
          exact ⟨0, k, by rw [List.drop_zero]; exact hk⟩
      · obtain ⟨hle, hsl⟩ := chunkLoopAux_mem mb fuel _ c h2
        exact ⟨hle, slice_trans hsl (slice_of_drop _ _)⟩

/-- The loop never emits an empty chunk. -/
theorem chunkLoopAux_ne_nil (mb : Nat) :
    ∀ (fuel : Nat) (rest : List Char), [] ∉ chunkLoopAux mb fuel rest
  | 0, _ => List.not_mem_nil _
  | fuel + 1, [] => List.not_mem_nil _
  | fuel + 1, ch :: cs => by
    rw [chunkLoopAux]
    split
    · intro h
      exact (emit_mem h).2 (emit_mem h).1.symm
    · intro h
      rcases List.mem_append.1 h with h1 | h2
      · exact (emit_mem h1).2 (emit_mem h1).1.symm
      · exact chunkLoopAux_ne_nil mb fuel _ h2

/-- C1 (amended): every chunk that `chunk_message_smart` returns is a
contiguous run of whole code points of the input (so no multi-byte code
point is ever split across chunks), and its UTF-8 byte length is at most
`max ceiling 4`, where the ceiling is `max(1, min(chunk_size,
MAX_DM_BYTES))`.  For ceilings of at least 4 bytes this is exactly the
claimed bound; a ceiling of 1 to 3 bytes is exceeded when a single code
point wider than the ceiling is forced into a chunk whole, which refutes
the claim as stated. -/
theorem c1_chunk_byte_ceiling (message : List Char) (chunk_size : Int) (c : List Char)
    (hc : c ∈ chunk_message_smart message chunk_size) :
    utf8Len c ≤ max (max_bytes_of chunk_size) 4 ∧ ∃ i j, c = (message.drop i).take j := by
  rw [chunk_message_smart] at hc
  split at hc
  · rw [List.mem_singleton] at hc
    subst hc
    exact ⟨by simp [utf8Len], 0, 0, rfl⟩
  · split at hc
    · rw [List.mem_singleton] at hc
      subst hc
      exact ⟨by simp [utf8Len], 0, 0, rfl⟩
    · exact chunkLoopAux_mem _ _ _ _ hc

/-- Witness for `c1_chunk_byte_ceiling` at a concrete input. -/
theorem c1_chunk_byte_ceiling_witness :
    "hello".toList ∈ chunk_message_smart "hello world".toList 5 ∧
      (utf8Len "hello".toList ≤ max (max_bytes_of 5) 4 ∧
        ∃ i j, "hello".toList = (("hello world".toList).drop i).take j) :=
  ⟨by decide, c1_chunk_byte_ceiling "hello world".toList 5 "hello".toList (by decide)⟩

/-- C1 counterexample: with a ceiling of 1 byte, a two-byte code point is
returned as a chunk whose UTF-8 length exceeds the capped ceiling. -/
theorem c1_chunk_byte_ceiling_counterexample :
    chunk_message_smart ['é'] 1 = [['é']] ∧ max_bytes_of 1 < utf8Len ['é'] := by
  decide

/-- C9: the chunker always returns at least one element; apart from the
sentinel result `[""]` every returned chunk is non-empty; and the
sentinel is returned exactly when the input is empty or every candidate
chunk of the splitting loop trims to nothing. -/
theorem c9_no_empty_chunks (message : List Char) (chunk_size : Int) :
    chunk_message_smart message chunk_size ≠ [] ∧
      (chunk_message_smart message chunk_size = [[]] ∨
        ∀ c ∈ chunk_message_smart message chunk_size, c ≠ []) ∧
      (chunk_message_smart message chunk_size = [[]] ↔
        message = [] ∨ chunkLoopAux (max_bytes_of chunk_size) message.length message = []) := by
  by_cases hm : message = []
  · simp [chunk_message_smart, hm]
  · by_cases hl : chunkLoopAux (max_bytes_of chunk_size) message.length message = []
    · simp [chunk_message_smart, hm, hl]
    · rw [chunk_message_smart, if_neg hm, if_neg hl]
      refine ⟨hl, Or.inr ?_, ?_⟩
      · intro c hc hceq
        subst hceq
        exact chunkLoopAux_ne_nil _ _ _ hc
      · constructor
        · intro h
          exact absurd (h ▸ List.mem_singleton_self []) (chunkLoopAux_ne_nil _ _ _)
        · intro h
          rcases h with h | h
          · exact absurd h hm
          · exact absurd h hl

end chunker

/-! ## Facts about the numeric helpers -/

theorem digitChar_isDigit {d : Nat} (h : d < 10) : isDigitCh (Nat.digitChar d) = true := by
  interval_cases d <;> decide

theorem digitChar_toNat {d : Nat} (h : d < 10) : (Nat.digitChar d).toNat = 48 + d := by
  interval_cases d <;> decide

theorem digitsVal_append_digit (a : List Char) (d : Char) :
    digitsVal (a ++ [d]) = digitsVal a * 10 + (d.toNat - 48) := by
  simp [digitsVal, List.foldl_append]

/-- `natReprAux` with enough fuel produces the non-empty digit string of
its argument. -/
theorem natReprAux_spec : ∀ (fuel n : Nat), n < fuel →
    natReprAux fuel n ≠ [] ∧ (∀ c ∈ natReprAux fuel n, isDigitCh c = true) ∧
      digitsVal (natReprAux fuel n) = n
  | 0, n, h => absurd h (Nat.not_lt_zero n)
  | fuel + 1, n, h => by
    rw [natReprAux]
    split
    · rename_i h10
      refine ⟨by simp, ?_, ?_⟩
      · intro c hc
        rw [List.mem_singleton] at hc
        subst hc
        exact digitChar_isDigit h10
      · have ht := digitChar_toNat h10
        simp [digitsVal, ht]
    · rename_i h10
      push_neg at h10
      have hlt : n / 10 < fuel := by
        have := Nat.div_lt_self (by omega : 0 < n) (by omega : 1 < 10)
        omega
      obtain ⟨hne, hdig, hval⟩ := natReprAux_spec fuel (n / 10) hlt
      refine ⟨by simp, ?_, ?_⟩
      · intro c hc
        rcases List.mem_append.1 hc with hc | hc
        · exact hdig c hc
        · rw [List.mem_singleton] at hc
          subst hc
          exact digitChar_isDigit (Nat.mod_lt n (by omega))
      · rw [digitsVal_append_digit, hval, digitChar_toNat (Nat.mod_lt n (by omega))]
        omega

theorem natRepr_ne_nil (n : Nat) : natRepr n ≠ [] :=
  (natReprAux_spec (n + 1) n (Nat.lt_succ_self n)).1

theorem natRepr_digits (n : Nat) : ∀ c ∈ natRepr n, isDigitCh c = true :=
  (natReprAux_spec (n + 1) n (Nat.lt_succ_self n)).2.1

theorem natRepr_val (n : Nat) : digitsVal (natRepr n) = n :=
  (natReprAux_spec (n + 1) n (Nat.lt_succ_self n)).2.2

/-- A decimal digit is none of the delimiter characters the URL parser
cares about, and not whitespace. -/
theorem isDigitCh_props {ch : Char} (h : isDigitCh ch = true) :
    isPyWs ch = false ∧ ch ≠ '-' ∧ ch ≠ '+' ∧ ch ≠ '/' ∧ ch ≠ ':' := by
  refine ⟨?_, ?_, ?_, ?_, ?_⟩
  · cases hws : isPyWs ch
    · rfl
    · simp only [isPyWs, Bool.or_eq_true, beq_iff_eq] at hws
      rcases hws with ((((hws | hws) | hws) | hws) | hws) | hws <;>
        (subst hws; exact absurd h (by decide))
  · intro heq; subst heq; exact absurd h (by decide)
  · intro heq; subst heq; exact absurd h (by decide)
  · intro heq; subst heq; exact absurd h (by decide)
  · intro heq; subst heq; exact absurd h (by decide)

theorem dropWhile_eq_self_of {p : Char → Bool} {l : List Char}
    (h : ∀ c ∈ l, p c = false) : l.dropWhile p = l := by
  cases l with
  | nil => rfl
  | cons c cs => simp [List.dropWhile_cons, h c (List.mem_cons_self c cs)]

theorem rdropWhileP_eq_self_of {p : Char → Bool} {l : List Char}
    (h : ∀ c ∈ l, p c = false) : rdropWhileP p l = l := by
  rw [rdropWhileP, dropWhile_eq_self_of (fun c hc => h c (List.mem_reverse.1 hc)),
    List.reverse_reverse]

theorem pyStrip_eq_self_of {l : List Char} (h : ∀ c ∈ l, isPyWs c = false) :
    pyStrip l = l := by
  rw [pyStrip, dropWhile_eq_self_of h, rdropWhileP_eq_self_of h]

/-- `int(str(p)) == p`. -/
theorem pyInt?_intRepr (p : Int) : pyInt? (intRepr p) = some p := by
  cases p with
  | ofNat n =>
    have hdig := natRepr_digits n
    have hstrip : pyStrip (natRepr n) = natRepr n :=
      pyStrip_eq_self_of (fun c hc => (isDigitCh_props (hdig c hc)).1)
    rw [intRepr, pyInt?, hstrip]
    rcases hr : natRepr n with _ | ⟨ch, rest⟩
    · exact absurd hr (natRepr_ne_nil n)
    · have hch : isDigitCh ch = true := hdig ch (by rw [hr]; exact List.mem_cons_self _ _)
      rw [if_neg (by simp), if_neg (by simpa using (isDigitCh_props hch).2.1),
        if_neg (by simpa using (isDigitCh_props hch).2.2.1)]
      have hall : (ch :: rest).all isDigitCh = true := by
        rw [List.all_eq_true]
        intro c hc
        exact hdig c (hr ▸ hc)
      rw [pyDigits?, if_pos ⟨List.cons_ne_nil ch rest, hall⟩]
      have : digitsVal (ch :: rest) = n := by rw [← hr]; exact natRepr_val n
      rw [this]
      rfl
  | negSucc m =>
    have hdig := natRepr_digits (m + 1)
    have hstrip : pyStrip ('-' :: natRepr (m + 1)) = '-' :: natRepr (m + 1) := by
      apply pyStrip_eq_self_of
      intro c hc
      rcases List.mem_cons.1 hc with hc | hc
      · subst hc; decide
      · exact (isDigitCh_props (hdig c hc)).1
    rw [intRepr, pyInt?, hstrip, if_neg (by simp), if_pos (by simp), List.tail_cons]
    have hall : (natRepr (m + 1)).all isDigitCh = true := by
      rw [List.all_eq_true]
      exact hdig
    rw [pyDigits?, if_pos ⟨natRepr_ne_nil (m + 1), hall⟩, natRepr_val]
    simp [Int.negSucc_eq]

/-- Splitting at the first separator, when the separator occurs right
after a separator-free part. -/
theorem splitFirst_append {a : List Char} {sep : Char} (b : List Char)
    (h : ∀ c ∈ a, c ≠ sep) : splitFirst (a ++ sep :: b) sep = (a, some b) := by
  induction a with
  | nil => simp [splitFirst]
  | cons c cs ih =>
    rw [List.cons_append, splitFirst, if_neg (h c (List.mem_cons_self c cs))]
    rw [ih (fun x hx => h x (List.mem_cons_of_mem c hx))]

theorem pyStartsWith_append (p x : List Char) : pyStartsWith (p ++ x) p = true := by
  simp [pyStartsWith, List.take_left]

/-- A string whose last character is not stripped is left whole by
`rdropWhileP`. -/
theorem rdropWhileP_of_last {p : Char → Bool} {l : List Char} {c : Char}
    (hlast : l.getLast? = some c) (hc : p c = false) : rdropWhileP p l = l := by
  have hrev : l.reverse.head? = some c := by rw [List.head?_reverse, hlast]
  rcases hr : l.reverse with _ | ⟨a, rest⟩
  · rw [hr] at hrev; exact absurd hrev (by simp)
  · rw [hr] at hrev
    simp only [List.head?_cons, Option.some.injEq] at hrev
    subst hrev
    rw [rdropWhileP, hr, List.dropWhile_cons, hc]
    simp only [Bool.false_eq_true, if_false]
    rw [← hr, List.reverse_reverse]

namespace gopherlib

/-! ## Facts about the Gopher+ menu decoder -/

theorem plusTruthy_flushAttr (st : PlusState) : plusTruthy (flushAttr st) = false := by
  rw [flushAttr]
  split <;> rfl

theorem halted_flushAttr (st : PlusState) : (flushAttr st).halted = st.halted := by
  rw [flushAttr]
  split <;> rfl

theorem done_flushAttr (st : PlusState) : (flushAttr st).done = st.done := by
  rw [flushAttr]
  split <;> rfl

theorem stepPlus_halted {st : PlusState} (h : st.halted = true) (l : List Char) :
    stepPlus st l = st := by
  rw [stepPlus, if_pos h]

theorem foldl_stepPlus_halted {st : PlusState} (h : st.halted = true) (ls : List (List Char)) :
    ls.foldl stepPlus st = st := by
  induction ls with
  | nil => rfl
  | cons l ls ih => rw [List.foldl_cons, stepPlus_halted h, ih]

/-- One loop step on lines that are not halted: a step only sets `halted`
at a `.` with no truthy open label, so a halted state never has one. -/
theorem stepPlus_halted_not_truthy {st : PlusState} (l : List Char)
    (hinv : st.halted = true → plusTruthy st = false)
    (h2 : (stepPlus st l).halted = true) : plusTruthy (stepPlus st l) = false := by
  by_cases hh : st.halted = true
  · rw [stepPlus_halted hh] at h2 ⊢
    exact hinv h2
  · rw [stepPlus, if_neg hh] at h2 ⊢
    set line := rdropWhileP (fun ch => ch == '\r') l with hline
    by_cases h0 : line = []
    · rw [if_pos h0] at h2 ⊢
      exact absurd h2 hh
    · rw [if_neg h0] at h2 ⊢
      by_cases hdot : line = ['.']
      · rw [if_pos hdot] at h2 ⊢
        by_cases ht : plusTruthy st = true
        · rw [if_pos ht] at h2 ⊢
          exact plusTruthy_flushAttr st
        · rw [if_neg ht] at h2 ⊢
          simpa [plusTruthy] using Bool.eq_false_iff.2 ht
      · rw [if_neg hdot] at h2 ⊢
        by_cases hinfo : pyStartsWith line "+INFO:".toList = true
        · rw [if_pos hinfo] at h2 ⊢
          by_cases hempty : line.drop 6 = []
          · rw [if_pos hempty] at h2 ⊢
            split at h2 <;> rename_i htr
            · rw [halted_flushAttr] at h2
              exact absurd h2 hh
            · exact absurd h2 hh
          · rw [if_neg hempty] at h2 ⊢
            split at h2 <;> rename_i htr
            · simp only [halted_flushAttr] at h2
              exact absurd h2 hh
            · exact absurd h2 hh
        · rw [if_neg hinfo] at h2 ⊢
          by_cases hlab : isAttrLabel line = true
          · rw [if_pos hlab] at h2 ⊢
            split at h2 <;> rename_i htr
            · simp only [halted_flushAttr] at h2
              exact absurd h2 hh
            · exact absurd h2 hh
          · rw [if_neg hlab] at h2 ⊢
            split at h2 <;> rename_i htr
            · exact absurd h2 hh
            · exact absurd h2 hh

/-- The `break` invariant over a whole run: a halted run has no truthy
open attribute label. -/
theorem runPlus_halted_not_truthy (ls : List (List Char)) :
    (runPlus ls).halted = true → plusTruthy (runPlus ls) = false := by
  rw [runPlus]
  generalize hst : initPlus = st0
  have hst0 : st0.halted = true → plusTruthy st0 = false := by
    rw [← hst]; intro h; exact absurd h (by decide)
  clear hst
  induction ls generalizing st0 with
  | nil => exact hst0
  | cons l ls ih =>
    rw [List.foldl_cons]
    exact ih (stepPlus st0 l) (stepPlus_halted_not_truthy l hst0)

theorem runPlus_append (ls ms : List (List Char)) :
    runPlus (ls ++ ms) = ms.foldl stepPlus (runPlus ls) := by
  rw [runPlus, runPlus, List.foldl_append]

theorem parse_menu_plus_of_run {ls ms : List (List Char)} (h : runPlus ls = runPlus ms) :
    parse_menu_plus ls = parse_menu_plus ms := by
  rw [parse_menu_plus, parse_menu_plus, h]

/-- The step taken on a lone `.` line when no attribute block is open:
`break`. -/
theorem stepPlus_dot_break {st : PlusState} (hh : st.halted = false)
    (ht : plusTruthy st = false) : stepPlus st ['.'] = { st with halted := true } := by
  have hdrop : rdropWhileP (fun ch => ch == '\r') ['.'] = ['.'] := by decide
  rw [stepPlus, if_neg (by simp [hh]), hdrop, if_neg (by decide), if_pos rfl, if_neg (by simp [ht])]

/-- The step taken on a lone `.` line while an attribute block is open:
flush and continue. -/
theorem stepPlus_dot_flush {st : PlusState} (hh : st.halted = false)
    (ht : plusTruthy st = true) : stepPlus st ['.'] = flushAttr st := by
  have hdrop : rdropWhileP (fun ch => ch == '\r') ['.'] = ['.'] := by decide
  rw [stepPlus, if_neg (by simp [hh]), hdrop, if_neg (by decide), if_pos rfl, if_pos ht]

/-- `flushAttr` always closes the open label. -/
theorem curAttr_flushAttr (st : PlusState) : (flushAttr st).curAttr = none := by
  rw [flushAttr]
  split <;> rfl

/-- Truthiness of the open label only reads `curAttr`. -/
theorem plusTruthy_congr {st st2 : PlusState} (h : st.curAttr = st2.curAttr) :
    plusTruthy st = plusTruthy st2 := by
  unfold plusTruthy
  rw [h]

/-- The step taken on a `+INFO:` line with a non-empty remainder: flush
any open block, close the previous entry, and open the new one. -/
theorem stepPlus_info {st : PlusState} {r : List Char} (hh : st.halted = false)
    (hr : r ≠ []) (hcr : r.getLast? ≠ some '\r') :
    stepPlus st ("+INFO:".toList ++ r) =
      ⟨(if plusTruthy st then flushAttr st else st).done ++
          (if plusTruthy st then flushAttr st else st).cur.toList,
        some (make_menu_entry_from_info r),
        (if plusTruthy st then flushAttr st else st).curAttr,
        (if plusTruthy st then flushAttr st else st).buf,
        (if plusTruthy st then flushAttr st else st).halted⟩ := by
  have hlastchar : ∃ c, r.getLast? = some c ∧ (c == '\r') = false := by
    rcases hl : r.getLast? with _ | c
    · exact absurd (List.getLast?_eq_none_iff.1 hl) hr
    · refine ⟨c, rfl, ?_⟩
      by_cases hc : c = '\r'
      · exact absurd (hc ▸ hl) hcr
      · simpa using hc
  obtain ⟨c, hlast, hcfalse⟩ := hlastchar
  have hdrop : rdropWhileP (fun ch => ch == '\r') ("+INFO:".toList ++ r) = "+INFO:".toList ++ r := by
    apply rdropWhileP_of_last (c := c) _ hcfalse
    rw [List.getLast?_append_of_ne_nil _ hr]
    exact hlast
  have hne : "+INFO:".toList ++ r ≠ [] := by simp
  have hnedot : "+INFO:".toList ++ r ≠ ['.'] := by
    intro hx
    rw [show "+INFO:".toList ++ r = '+' :: ("INFO:".toList ++ r) from rfl] at hx
    simp at hx
  have hstarts : pyStartsWith ("+INFO:".toList ++ r) "+INFO:".toList = true :=
    pyStartsWith_append _ _
  have hdrop6 : ("+INFO:".toList ++ r).drop 6 = r := by
    rw [show (6 : Nat) = ("+INFO:".toList).length from rfl, List.drop_left]
  rw [stepPlus, if_neg (by simp [hh]), hdrop, if_neg hne, if_neg hnedot, if_pos hstarts, hdrop6,
    if_neg hr]

/-- A run ending in a `+INFO:` line with a non-empty remainder: no label
is open afterwards, and the final entry list is the previous parse result
with the new entry appended. -/
theorem runPlus_info (ls : List (List Char)) (r : List Char) (hh : (runPlus ls).halted = false)
    (hr : r ≠ []) (hcr : r.getLast? ≠ some '\r') :
    plusTruthy (runPlus (ls ++ ["+INFO:".toList ++ r])) = false ∧
      (runPlus (ls ++ ["+INFO:".toList ++ r])).done ++
          (runPlus (ls ++ ["+INFO:".toList ++ r])).cur.toList =
        parse_menu_plus ls ++ [make_menu_entry_from_info r] := by
  rw [runPlus_append, List.foldl_cons, List.foldl_nil, stepPlus_info hh hr hcr]
  by_cases ht : plusTruthy (runPlus ls) = true
  · rw [if_pos ht]
    constructor
    · exact (plusTruthy_congr rfl).trans (plusTruthy_flushAttr (runPlus ls))
    · rw [parse_menu_plus, if_pos ht]
      simp
  · rw [if_neg ht]
    constructor
    · exact (plusTruthy_congr rfl).trans (Bool.eq_false_iff.2 ht)
    · rw [parse_menu_plus, if_neg ht]
      simp

/-- C2 (amended): a `.` response line terminates Gopher+ parsing only
when no attribute block is open, and then no later line contributes
anything; when a block is open, the `.` flushes the block and parsing
continues with the following lines (it does not stop, contrary to the
claim as stated). -/
theorem c2_dot_line (ls rest : List (List Char)) :
    (plusTruthy (runPlus ls) = false →
      parse_menu_plus (ls ++ (['.'] : List Char) :: rest) = parse_menu_plus ls) ∧
    (plusTruthy (runPlus ls) = true →
      runPlus (ls ++ [(['.'] : List Char)]) = flushAttr (runPlus ls)) := by
  constructor
  · intro ht
    by_cases hh : (runPlus ls).halted = true
    · apply parse_menu_plus_of_run
      rw [runPlus_append, foldl_stepPlus_halted hh]
    · have hb := stepPlus_dot_break (Bool.eq_false_iff.2 hh) ht
      rw [parse_menu_plus, parse_menu_plus, runPlus_append, List.foldl_cons, hb,
        foldl_stepPlus_halted (by rfl)]
      rw [show plusTruthy { runPlus ls with halted := true } = plusTruthy (runPlus ls) from rfl, ht]
      simp only [Bool.false_eq_true, if_false]
  · intro ht
    have hh : (runPlus ls).halted = false := by
      by_contra hcon
      rw [Bool.not_eq_false] at hcon
      exact absurd (runPlus_halted_not_truthy ls hcon) (by simp [ht])
    rw [runPlus_append, List.foldl_cons, stepPlus_dot_flush hh ht]
    rfl

/-- C2 counterexample: a `.` line arriving while a `+FIELDS:` block is
open flushes the block and parsing continues, so the `+INFO:` line after
the `.` still contributes an entry (the claim as stated allows only one
entry here). -/
theorem c2_dot_line_counterexample :
    (parse_menu_plus ["+INFO:1A\t/s\th\t70".toList, "+FIELDS:".toList, "q".toList, ".".toList,
      "+INFO:1B\t/t\th2\t71".toList]).length = 2 := by
  decide

/-- C3 (amended): a `+INFO:` line with a non-empty remainder flushes any
open attribute block, parses the remainder exactly like a classic menu
line, appends the new entry and makes it current; but the new entry has
`attributes = none`, not a present-but-empty mapping — `_make_menu_entry`
stores the empty dict passed by `_make_menu_entry_from_info` as `None`
because an empty dict is falsy (and a bare `+INFO:` line appends no entry
at all). -/
theorem c3_info_appends_entry (ls : List (List Char)) (r : List Char)
    (hh : (runPlus ls).halted = false) (hr : r ≠ []) (hcr : r.getLast? ≠ some '\r') :
    parse_menu_plus (ls ++ ["+INFO:".toList ++ r]) =
        parse_menu_plus ls ++ [make_menu_entry_from_info r] ∧
      (make_menu_entry_from_info r).attributes = none := by
  obtain ⟨h1, h2⟩ := runPlus_info ls r hh hr hcr
  constructor
  · rw [parse_menu_plus, if_neg (Bool.eq_false_iff.1 h1)]
    exact h2
  · cases r with
    | nil => exact absurd rfl hr
    | cons t ts => rfl

/-- Witness for `c3_info_appends_entry` at a concrete response. -/
theorem c3_info_appends_entry_witness :
    parse_menu_plus (["+FIELDS:".toList, "q".toList] ++ ["+INFO:".toList ++ "1A\t/s\th\t70".toList]) =
        parse_menu_plus ["+FIELDS:".toList, "q".toList] ++
          [make_menu_entry_from_info "1A\t/s\th\t70".toList] ∧
      (make_menu_entry_from_info "1A\t/s\th\t70".toList).attributes = none :=
  c3_info_appends_entry ["+FIELDS:".toList, "q".toList] "1A\t/s\th\t70".toList (by decide)
    (by decide) (by decide)

/-- C3 counterexample: the entry decoded from a `+INFO:` line carries
`attributes = none`, not a present-but-empty mapping, and a bare `+INFO:`
line appends no entry although it begins with `+INFO:`. -/
theorem c3_info_appends_entry_counterexample :
    (parse_menu_plus ["+INFO:1A\t/s\th\t70".toList]).map (fun e => e.attributes) = [none] ∧
      parse_menu_plus ["+INFO:".toList] = [] := by
  decide

/-- C4: for a descriptor whose (lower-cased) type is none of `1`, `7`,
`t` and whose raw type is not `0`, `fetch` never raises, and a connection
failure on that binary fallback path is returned as the
`(0, "Error fetching: ...")` result; whereas for menu (`1`) and file
(`0`) descriptors the same connection failure propagates out of `fetch`. -/
theorem c4_fetch_binary_never_raises (url : GopherURL) (net : Net) (e e2 : List Char) :
    (url.type.map Char.toLower ≠ "1".toList → url.type.map Char.toLower ≠ "7".toList →
      url.type.map Char.toLower ≠ "t".toList → url.type ≠ "0".toList →
      raised (fetch net url) = false ∧
        (net url.host url.port url.selector [] = .error e →
          fetch net url = .ok ("binary".toList, .binaryP 0 ("Error fetching: ".toList ++ e)))) ∧
    (url.type = "0".toList → net url.host url.port url.selector [] = .error e →
      fetch net url = .error e) ∧
    (url.type.map Char.toLower = "1".toList →
      net url.host url.port url.selector "\t+".toList = .error e2 →
      net url.host url.port url.selector [] = .error e →
      fetch net url = .error e) := by
  refine ⟨?_, ?_, ?_⟩
  · intro h1 h7 ht h0
    constructor
    · rcases hnet : net url.host url.port url.selector [] with e3 | ls <;>
        rw [fetch, if_neg h1, if_neg (fun h => h.elim h7 ht), if_neg h0, hnet] <;> rfl
    · intro hnet
      rw [fetch, if_neg h1, if_neg (fun h => h.elim h7 ht), if_neg h0, hnet]
  · intro h0 hnet
    rw [fetch, h0, if_neg (by decide), if_neg (by decide), if_pos rfl, hnet]
    rfl
  · intro h1 hp hn
    rw [fetch, if_pos h1, fetch_menu, hp, hn]
    rfl

/-- C10: a gopher URL whose authority has a port component that `int()`
rejects makes `parse_gopher_url` raise the `ValueError` (no default is
substituted); the 70 default for unparsable ports exists only in
`_make_menu_entry`, which builds menu-listing entries. -/
theorem c10_bad_port_raises (u h ps t d sel host p : List Char) :
    (pyStartsWith (u.map Char.toLower) "gopher://".toList = true →
      splitFirst (splitFirst (u.drop 9) '/').1 ':' = (h, some ps) →
      pyInt? ps = none →
      parse_gopher_url u = .error (int_value_error ps)) ∧
    (pyInt? p = none → (make_menu_entry t d sel host p none).port = 70) := by
  constructor
  · intro hpre hsp hint
    simp only [parse_gopher_url, if_pos hpre, hsp, hint]
  · intro hp2
    by_cases hp0 : p = []
    · simp [make_menu_entry, hp0, DEFAULT_PORT]
    · simp [make_menu_entry, hp0, hp2, DEFAULT_PORT]

/-- The characters of `str(int)` are a sign or decimal digits. -/
theorem intRepr_chars (p : Int) : ∀ c ∈ intRepr p, c = '-' ∨ isDigitCh c = true := by
  cases p with
  | ofNat n =>
    intro c hc
    exact Or.inr (natRepr_digits n c hc)
  | negSucc m =>
    intro c hc
    rcases List.mem_cons.1 hc with hc | hc
    · exact Or.inl hc
    · exact Or.inr (natRepr_digits (m + 1) c hc)

/-- C7: parsing the `currentUrl()`-style serialization
`gopher://host:port/type+selector` of any descriptor with a recognized
single-character type and a host free of `:` and `/` returns the
descriptor exactly; and `parse("gopher://x.org")` yields type `1`, an
empty selector and port 70. -/
theorem c7_url_round_trip (u : GopherURL) (t : Char) (h1 : u.type = [t])
    (h2 : t ∈ valid_types) (h3 : ':' ∉ u.host) (h4 : '/' ∉ u.host) :
    parse_gopher_url (main.format_gopher_url u) = .ok u ∧
      parse_gopher_url "gopher://x.org".toList =
        .ok ⟨"x.org".toList, 70, "1".toList, []⟩ := by
  refine ⟨?_, by decide⟩
  have hfmt : main.format_gopher_url u =
      "gopher://".toList ++ ((u.host ++ ':' :: intRepr u.port) ++ '/' :: t :: u.selector) := by
    rw [main.format_gopher_url, h1]
    simp
  rw [hfmt, parse_gopher_url]
  have hpre : pyStartsWith
      ((("gopher://".toList ++ ((u.host ++ ':' :: intRepr u.port) ++ '/' :: t :: u.selector))).map
        Char.toLower) "gopher://".toList = true := by
    rw [List.map_append, show ("gopher://".toList).map Char.toLower = "gopher://".toList from
      by decide]
    exact pyStartsWith_append _ _
  rw [if_pos hpre]
  have hdrop :
      ("gopher://".toList ++ ((u.host ++ ':' :: intRepr u.port) ++ '/' :: t :: u.selector)).drop 9
        = (u.host ++ ':' :: intRepr u.port) ++ '/' :: t :: u.selector := by
    rw [show (9 : Nat) = ("gopher://".toList).length from rfl, List.drop_left]
  rw [hdrop]
  have hnoslash : ∀ c ∈ u.host ++ ':' :: intRepr u.port, c ≠ '/' := by
    intro c hc
    rcases List.mem_append.1 hc with hc | hc
    · intro he; subst he; exact h4 hc
    · rcases List.mem_cons.1 hc with hc | hc
      · subst hc; decide
      · intro he
        subst he
        rcases intRepr_chars u.port _ hc with hd | hd
        · exact absurd hd (by decide)
        · exact absurd hd (by decide)
  have hnocolon : ∀ c ∈ u.host, c ≠ ':' := fun c hc he => h3 (he ▸ hc)
  simp only [splitFirst_append _ hnoslash, splitFirst_append _ hnocolon, pyInt?_intRepr,
    Option.getD_some]
  rw [parsed_url, if_pos h2]
  rw [← h1]

/-- Witness for `c7_url_round_trip` at a concrete descriptor. -/
theorem c7_url_round_trip_witness :
    parse_gopher_url (main.format_gopher_url ⟨"h".toList, 7070, "0".toList, "/a/b".toList⟩) =
        .ok ⟨"h".toList, 7070, "0".toList, "/a/b".toList⟩ ∧
      parse_gopher_url "gopher://x.org".toList =
        .ok ⟨"x.org".toList, 70, "1".toList, []⟩ :=
  c7_url_round_trip ⟨"h".toList, 7070, "0".toList, "/a/b".toList⟩ '0' (by decide) (by decide)
    (by decide) (by decide)

end gopherlib

namespace main

open gopherlib

/-! ## Facts about the navigation session -/

/-- C5: for each session operation, when the underlying fetch or search
transaction raises, the exception propagates and the session (its history
stack and its current view) is exactly what it was before the call. -/
theorem c5_failed_fetch_atomicity (s : Session) (url_str terms : List Char) (idx : Nat)
    (net : Net) :
    (raised (open_url s url_str net).1 = true → (open_url s url_str net).2 = s) ∧
      (raised (select_index s idx net).1 = true → (select_index s idx net).2 = s) ∧
      (raised (search_op s terms net).1 = true → (search_op s terms net).2 = s) := by
  refine ⟨?_, ?_, ?_⟩
  · rw [open_url]
    split
    · intro h
      simp [raised] at h
    · split
      · intro h
        rfl
      · split
        · intro h
          simp [raised] at h
        · intro h
          simp [raised] at h
  · rw [select_index]
    split
    · intro h
      simp [raised] at h
    · split
      · split
        · intro h
          simp [raised] at h
        · split
          · intro h
            simp [raised] at h
          · split
            · intro h
              rfl
            · intro h
              simp [raised] at h
      · intro h
        simp [raised] at h
  · rw [search_op]
    split
    · intro h
      simp [raised] at h
    · split
      · intro h
        simp [raised] at h
      · split
        · intro h
          simp [raised] at h
        · split
          · intro h
            simp [raised] at h
          · split
            · intro h
              rfl
            · intro h
              simp [raised] at h

/-- The field-assignment fold of `build_query_spec` agrees with the
recursive assignment of the source on any accumulator. -/
theorem assignFields_foldl (fields : List (List Char)) :
    ∀ (named : PyDict) (positional : List (List Char)) (acc : List (List Char)),
      fields.foldl
        (fun acc f =>
          match dictPop acc.2.1 (f.map Char.toLower) with
          | some (v, named2) => (acc.1 ++ [v], named2, acc.2.2)
          | none =>
            match acc.2.2 with
            | p :: ps => (acc.1 ++ [p], acc.2.1, ps)
            | [] => (acc.1 ++ [([] : List Char)], acc.2.1, ([] : List (List Char))))
        (acc, named, positional) =
      (acc ++ (assignFields fields named positional).1,
        (assignFields fields named positional).2.1,
        (assignFields fields named positional).2.2) := by
  induction fields with
  | nil => intro named positional acc; simp [assignFields]
  | cons f fs ih =>
    intro named positional acc
    rw [List.foldl_cons]
    rcases hd : dictPop named (f.map Char.toLower) with _ | ⟨v, named2⟩
    · rcases hp : positional with _ | ⟨p, ps⟩
      · simp only [hd]
        rw [ih named [] (acc ++ [[]])]
        simp [assignFields, hd]
      · simp only [hd]
        rw [ih named ps (acc ++ [p])]
        simp [assignFields, hd]
    · simp only [hd]
      rw [ih named2 positional (acc ++ [v])]
      simp [assignFields, hd]

/-- C6: the search-query builder of the source agrees, for every declared
field list and every tokenized input, with the specification's
description (named value first, consumed once and case-insensitively,
else next positional token, else empty; leftovers appended positional
first; tab-joined); in particular fields `author, title` with input
`title=Dune author=Herbert` yield `Herbert\tDune`. -/
theorem c6_search_query_builder (fields tokens : List (List Char)) :
    build_query_spec fields tokens = build_query_from_tokens fields tokens ∧
      build_search_query
        ⟨"7".toList, "Search books".toList, "/search".toList, "h".toList, 70,
          some [("FIELDS".toList, ["author".toList, "title".toList])]⟩
        "title=Dune author=Herbert".toList = "Herbert\tDune".toList := by
  constructor
  · by_cases ht : tokens = []
    · rw [build_query_spec, build_query_from_tokens, if_pos ht, if_pos ht]
    · by_cases hf : fields = []
      · rw [build_query_spec, build_query_from_tokens, if_neg ht, if_neg ht, if_pos hf, if_pos hf]
      · rw [build_query_spec, build_query_from_tokens, if_neg ht, if_neg ht, if_neg hf, if_neg hf]
        rw [assignFields_foldl fields (partitionTokens tokens).1 (partitionTokens tokens).2 []]
        rcases ha : assignFields fields (partitionTokens tokens).1 (partitionTokens tokens).2
          with ⟨vals, namedLeft, posLeft⟩
        simp
  · decide

/-- C8: with the pagination invariant holding (the offset is a multiple of
the page width and within `max 1 itemCount`), `next_page` and `prev_page`
move the offset by exactly one page width when that stays in bounds, and
otherwise report the boundary message and leave the session unchanged, so
the invariant holds after the operation. -/
theorem c8_paging (s : Session) (vs : ViewState) (hcur : s.current = some vs) :
    (vs.view_kind = "menu".toList →
      (MENU_PAGE_SIZE ∣ vs.menu_offset →
        vs.menu_offset < max 1 (selectable_entries s).length →
        (((selectable_entries s).length ≤ vs.menu_offset + MENU_PAGE_SIZE ∧
            (next_page s).1 = "End of menu.".toList ∧ (next_page s).2 = s) ∨
          (vs.menu_offset + MENU_PAGE_SIZE < (selectable_entries s).length ∧
            (next_page s).2 =
              { s with current := some { vs with menu_offset := vs.menu_offset + MENU_PAGE_SIZE } } ∧
            MENU_PAGE_SIZE ∣ vs.menu_offset + MENU_PAGE_SIZE ∧
            vs.menu_offset + MENU_PAGE_SIZE < max 1 (selectable_entries s).length))) ∧
      (MENU_PAGE_SIZE ∣ vs.menu_offset →
        vs.menu_offset < max 1 (selectable_entries s).length →
        ((vs.menu_offset = 0 ∧ (prev_page s).1 = "Already at start.".toList ∧
            (prev_page s).2 = s) ∨
          (0 < vs.menu_offset ∧
            (prev_page s).2 =
              { s with current := some { vs with menu_offset := vs.menu_offset - MENU_PAGE_SIZE } } ∧
            vs.menu_offset - MENU_PAGE_SIZE + MENU_PAGE_SIZE = vs.menu_offset ∧
            MENU_PAGE_SIZE ∣ vs.menu_offset - MENU_PAGE_SIZE ∧
            vs.menu_offset - MENU_PAGE_SIZE < max 1 (selectable_entries s).length)))) ∧
    (vs.view_kind = "file".toList →
      (FILE_PAGE_SIZE ∣ vs.file_offset →
        vs.file_offset < max 1 (payloadLines vs.payload).length →
        (((payloadLines vs.payload).length ≤ vs.file_offset + FILE_PAGE_SIZE ∧
            (next_page s).1 = "End of file.".toList ∧ (next_page s).2 = s) ∨
          (vs.file_offset + FILE_PAGE_SIZE < (payloadLines vs.payload).length ∧
            (next_page s).2 =
              { s with current := some { vs with file_offset := vs.file_offset + FILE_PAGE_SIZE } } ∧
            FILE_PAGE_SIZE ∣ vs.file_offset + FILE_PAGE_SIZE ∧
            vs.file_offset + FILE_PAGE_SIZE < max 1 (payloadLines vs.payload).length))) ∧
      (FILE_PAGE_SIZE ∣ vs.file_offset →
        vs.file_offset < max 1 (payloadLines vs.payload).length →
        ((vs.file_offset = 0 ∧ (prev_page s).1 = "Already at start.".toList ∧
            (prev_page s).2 = s) ∨
          (0 < vs.file_offset ∧
            (prev_page s).2 =
              { s with current := some { vs with file_offset := vs.file_offset - FILE_PAGE_SIZE } } ∧
            vs.file_offset - FILE_PAGE_SIZE + FILE_PAGE_SIZE = vs.file_offset ∧
            FILE_PAGE_SIZE ∣ vs.file_offset - FILE_PAGE_SIZE ∧
            vs.file_offset - FILE_PAGE_SIZE < max 1 (payloadLines vs.payload).length)))) := by
  constructor
  · intro hk
    constructor
    · intro hdvd hbound
      simp only [next_page, hcur]
      rw [if_pos hk]
      by_cases hb : (selectable_entries s).length ≤ vs.menu_offset + MENU_PAGE_SIZE
      · rw [if_pos hb]
        exact Or.inl ⟨hb, rfl, rfl⟩
      · rw [if_neg hb]
        push_neg at hb
        refine Or.inr ⟨hb, rfl, ?_, ?_⟩
        · simp only [MENU_PAGE_SIZE] at hdvd ⊢
          omega
        · omega
    · intro hdvd hbound
      simp only [prev_page, hcur]
      rw [if_pos hk]
      by_cases hz : vs.menu_offset = 0
      · rw [if_pos hz]
        exact Or.inl ⟨hz, rfl, rfl⟩
      · rw [if_neg hz]
        have hge : MENU_PAGE_SIZE ≤ vs.menu_offset := Nat.le_of_dvd (Nat.pos_of_ne_zero hz) hdvd
        refine Or.inr ⟨Nat.pos_of_ne_zero hz, rfl, by omega, ?_, by omega⟩
        simp only [MENU_PAGE_SIZE] at hdvd hge ⊢
        omega
  · intro hk
    have hkm : ¬ vs.view_kind = "menu".toList := by
      rw [hk]
      decide
    constructor
    · intro hdvd hbound
      simp only [next_page, hcur]
      rw [if_neg hkm, if_pos hk]
      by_cases hb : (payloadLines vs.payload).length ≤ vs.file_offset + FILE_PAGE_SIZE
      · rw [if_pos hb]
        exact Or.inl ⟨hb, rfl, rfl⟩
      · rw [if_neg hb]
        push_neg at hb
        refine Or.inr ⟨hb, rfl, ?_, ?_⟩
        · simp only [FILE_PAGE_SIZE] at hdvd ⊢
          omega
        · omega
    · intro hdvd hbound
      simp only [prev_page, hcur]
      rw [if_neg hkm, if_pos hk]
      by_cases hz : vs.file_offset = 0
      · rw [if_pos hz]
        exact Or.inl ⟨hz, rfl, rfl⟩
      · rw [if_neg hz]
        have hge : FILE_PAGE_SIZE ≤ vs.file_offset := Nat.le_of_dvd (Nat.pos_of_ne_zero hz) hdvd
        refine Or.inr ⟨Nat.pos_of_ne_zero hz, rfl, by omega, ?_, by omega⟩
        simp only [FILE_PAGE_SIZE] at hdvd hge ⊢
        omega

/-- Witness for `c8_paging` on a one-entry menu: both moves are rejected
with the boundary messages and the session is untouched. -/
theorem c8_paging_witness :
    ((next_page ⟨[⟨⟨"h".toList, 70, "1".toList, []⟩, "menu".toList,
          .menuP [⟨"0".toList, "A".toList, "/a".toList, "h".toList, 70, none⟩], 0, 0, none⟩],
        some ⟨⟨"h".toList, 70, "1".toList, []⟩, "menu".toList,
          .menuP [⟨"0".toList, "A".toList, "/a".toList, "h".toList, 70, none⟩], 0, 0, none⟩⟩).1 =
        "End of menu.".toList ∧
      (next_page ⟨[⟨⟨"h".toList, 70, "1".toList, []⟩, "menu".toList,
          .menuP [⟨"0".toList, "A".toList, "/a".toList, "h".toList, 70, none⟩], 0, 0, none⟩],
        some ⟨⟨"h".toList, 70, "1".toList, []⟩, "menu".toList,
          .menuP [⟨"0".toList, "A".toList, "/a".toList, "h".toList, 70, none⟩], 0, 0, none⟩⟩).2 =
        ⟨[⟨⟨"h".toList, 70, "1".toList, []⟩, "menu".toList,
          .menuP [⟨"0".toList, "A".toList, "/a".toList, "h".toList, 70, none⟩], 0, 0, none⟩],
        some ⟨⟨"h".toList, 70, "1".toList, []⟩, "menu".toList,
          .menuP [⟨"0".toList, "A".toList, "/a".toList, "h".toList, 70, none⟩], 0, 0, none⟩⟩) ∧
    ((prev_page ⟨[⟨⟨"h".toList, 70, "1".toList, []⟩, "menu".toList,
          .menuP [⟨"0".toList, "A".toList, "/a".toList, "h".toList, 70, none⟩], 0, 0, none⟩],
        some ⟨⟨"h".toList, 70, "1".toList, []⟩, "menu".toList,
          .menuP [⟨"0".toList, "A".toList, "/a".toList, "h".toList, 70, none⟩], 0, 0, none⟩⟩).1 =
        "Already at start.".toList ∧
      (prev_page ⟨[⟨⟨"h".toList, 70, "1".toList, []⟩, "menu".toList,
          .menuP [⟨"0".toList, "A".toList, "/a".toList, "h".toList, 70, none⟩], 0, 0, none⟩],
        some ⟨⟨"h".toList, 70, "1".toList, []⟩, "menu".toList,
          .menuP [⟨"0".toList, "A".toList, "/a".toList, "h".toList, 70, none⟩], 0, 0, none⟩⟩).2 =
        ⟨[⟨⟨"h".toList, 70, "1".toList, []⟩, "menu".toList,
          .menuP [⟨"0".toList, "A".toList, "/a".toList, "h".toList, 70, none⟩], 0, 0, none⟩],
        some ⟨⟨"h".toList, 70, "1".toList, []⟩, "menu".toList,
          .menuP [⟨"0".toList, "A".toList, "/a".toList, "h".toList, 70, none⟩], 0, 0, none⟩⟩) := by
  have h := (c8_paging
      ⟨[⟨⟨"h".toList, 70, "1".toList, []⟩, "menu".toList,
          .menuP [⟨"0".toList, "A".toList, "/a".toList, "h".toList, 70, none⟩], 0, 0, none⟩],
        some ⟨⟨"h".toList, 70, "1".toList, []⟩, "menu".toList,
          .menuP [⟨"0".toList, "A".toList, "/a".toList, "h".toList, 70, none⟩], 0, 0, none⟩⟩
      ⟨⟨"h".toList, 70, "1".toList, []⟩, "menu".toList,
        .menuP [⟨"0".toList, "A".toList, "/a".toList, "h".toList, 70, none⟩], 0, 0, none⟩
      rfl).1 rfl
  have h1 := (h.1 (by decide) (by decide)).resolve_right (by decide)
  have h2 := (h.2 (by decide) (by decide)).resolve_right (by decide)
  exact ⟨⟨h1.2.1, h1.2.2⟩, ⟨h2.2.1, h2.2.2⟩⟩

end main

end MeshGopher
